import Mathlib

/-!
# go-nilseeker: a shallow embedding of the nil-dereference analyzer

Sources embedded here:

* `src/cmd/nilseeker/main.go`  : `checkSelectorExpr`, `checkStarExpr`, `checkIndexExpr`,
  `typeKind`, `trackNilChecks`, `isNilIdent`, `isIdent`
* `src/pkg/analyzer/analyzer.go` : `run` (node filter, checked-variable map, preorder dispatch)

The analyzer rides on three libraries that are not part of the repository: `go/ast`
(syntax tree, `Pos()`, the child order of `ast.Walk`), `go/types` (`Type`, `Underlying()`)
and `x/tools/go/ast/inspector` (`Preorder`).  The fragments of those libraries the analyzer
touches are modelled below, next to the code that uses them.
-/

namespace NilSeeker

/-! ## go/token -/

/-- Source position, `token.Pos` (an integer offset; `0` is `token.NoPos`). -/
abbrev Pos := Nat

/-- Operator tokens of `go/token` that can head a unary or binary expression or an
assignment. -/
inductive Token where
  | ADD | SUB | MUL | QUO | REM
  | AND | OR | XOR | SHL | SHR | AND_NOT
  | LAND | LOR | ARROW
  | EQL | LSS | GTR | NOT
  | NEQ | LEQ | GEQ
  | ASSIGN | DEFINE
  deriving DecidableEq, Repr

/-! ## go/ast -/

/-- The fields of `ast.Ident` the analyzer can observe. -/
structure Ident where
  NamePos : Pos
  Name : String
  deriving DecidableEq, Repr

/-- Syntax-tree nodes of `go/ast`.

The six node kinds of the analyzer's filter and every expression kind the analyzer inspects
have a constructor of their own, with the Go field names.  Every other node kind
(`BlockStmt`, `ExprStmt`, `DeclStmt`, `GenDecl`, `ValueSpec`, `FuncDecl`, `File`,
`CompositeLit`, ...) is an `Other` node: the analyzer neither filters on such a node nor looks
inside it, so all it needs is the kind, the value of `Pos()` and the children in the order
`ast.Walk` visits them.  Position fields that do not determine `Pos()` are left out; the
field `Type` of `TypeAssertExpr` is spelled `Typ`. -/
inductive Node where
  | Ident (id : Ident)
  | BasicLit (ValuePos : Pos) (Value : String)
  | ParenExpr (Lparen : Pos) (X : Node)
  | SelectorExpr (X : Node) (Sel : Ident)
  | IndexExpr (X : Node) (Index : Node)
  | StarExpr (Star : Pos) (X : Node)
  | CallExpr (Fun : Node) (Args : List Node)
  | UnaryExpr (OpPos : Pos) (Op : Token) (X : Node)
  | BinaryExpr (X : Node) (Op : Token) (Y : Node)
  | TypeAssertExpr (X : Node) (Typ : Option Node)
  | AssignStmt (Lhs : List Node) (Tok : Token) (Rhs : List Node)
  | IfStmt (If : Pos) (Init : Option Node) (Cond : Node) (Body : Node) (Else : Option Node)
  | Other (kind : String) (pos : Pos) (children : List Node)
  deriving Repr

mutual
/-- The method `Pos()` of each node kind, as `go/ast` defines it. -/
def Node.Pos : Node → Pos
  | .Ident id => id.NamePos
  | .BasicLit p _ => p
  | .ParenExpr lp _ => lp
  | .SelectorExpr X _ => X.Pos
  | .IndexExpr X _ => X.Pos
  | .StarExpr star _ => star
  | .CallExpr f _ => f.Pos
  | .UnaryExpr p _ _ => p
  | .BinaryExpr X _ _ => X.Pos
  | .TypeAssertExpr X _ => X.Pos
  | .AssignStmt Lhs _ _ => firstPos Lhs
  | .IfStmt i _ _ _ _ => i
  | .Other _ p _ => p
/-- The expression `list[0].Pos()` of `AssignStmt.Pos`; the parser never builds an assignment
with an empty left side, for which Go would fault and this model answers `NoPos`. -/
def firstPos : List Node → Pos
  | [] => 0
  | n :: _ => n.Pos
end

mutual
/-- The nodes of a subtree in the depth-first preorder of `ast.Walk` (equivalently
`ast.Inspect`): the node itself, then its children in field order. -/
def Node.walk : Node → List Node
  | .Ident id => [.Ident id]
  | .BasicLit p v => [.BasicLit p v]
  | .ParenExpr lp X => .ParenExpr lp X :: X.walk
  | .SelectorExpr X Sel => .SelectorExpr X Sel :: (X.walk ++ [.Ident Sel])
  | .IndexExpr X Index => .IndexExpr X Index :: (X.walk ++ Index.walk)
  | .StarExpr star X => .StarExpr star X :: X.walk
  | .CallExpr f Args => .CallExpr f Args :: (f.walk ++ walkList Args)
  | .UnaryExpr p op X => .UnaryExpr p op X :: X.walk
  | .BinaryExpr X op Y => .BinaryExpr X op Y :: (X.walk ++ Y.walk)
  | .TypeAssertExpr X T => .TypeAssertExpr X T :: (X.walk ++ walkOpt T)
  | .AssignStmt Lhs tok Rhs => .AssignStmt Lhs tok Rhs :: (walkList Lhs ++ walkList Rhs)
  | .IfStmt i Init Cond Body Else =>
      .IfStmt i Init Cond Body Else
        :: (walkOpt Init ++ Cond.walk ++ Body.walk ++ walkOpt Else)
  | .Other k p cs => .Other k p cs :: walkList cs
/-- Preorder of a list of siblings, left to right. -/
def walkList : List Node → List Node
  | [] => []
  | n :: ns => n.walk ++ walkList ns
/-- Preorder of an optional child (`nil` fields are skipped by `ast.Walk`). -/
def walkOpt : Option Node → List Node
  | none => []
  | some n => n.walk
end

/-- The type assertion `expr.(*ast.Ident)`: the identifier when `expr` is one. -/
def asIdent : Node → Option Ident
  | .Ident id => some id
  | _ => none

/-! ## go/types -/

/-- The type representations of `go/types` (`types.Type`), reduced to what `Underlying()` and
the analyzer's type switches distinguish.  A `Named` type carries the type it was declared
from. -/
inductive GoType where
  | Basic (name : String)
  | Array (len : Nat) (elem : GoType)
  | Slice (elem : GoType)
  | Struct
  | Pointer (base : GoType)
  | Tuple
  | Signature
  | Interface
  | Map (key : GoType) (elem : GoType)
  | Chan (elem : GoType)
  | Named (name : String) (underlying : GoType)
  deriving DecidableEq, Repr

/-- The method `Underlying()`: a named type resolves to the unnamed type it stands for, every
other type is its own underlying type. -/
def GoType.Underlying : GoType → GoType
  | .Named _ u => u.Underlying
  | t => t

/-! ## The analysis pass and the run state -/

/-- A reported finding, `analysis.Diagnostic`: position and message. -/
structure Diagnostic where
  pos : Pos
  message : String
  deriving DecidableEq, Repr

/-- The map `checkedVars` of type `map[string]bool`: a key is absent (`none`) or bound to a
boolean. -/
abbrev CheckedVars := String → Option Bool

/-- The empty map, `make(map[string]bool)`. -/
def CheckedVars.make : CheckedVars := fun _ => none

/-- The read `checkedVars[name]`: the zero value `false` when the key is absent. -/
def CheckedVars.index (m : CheckedVars) (name : String) : Bool :=
  (m name).getD false

/-- The write `checkedVars[name] = v`. -/
def CheckedVars.assign (m : CheckedVars) (name : String) (v : Bool) : CheckedVars :=
  fun k => if k = name then some v else m k

/-- The inputs of an `analysis.Pass` the analyzer reads: the files of the package and
`TypesInfo.Types`.  `Types e = none` stands for a `TypeAndValue` whose `Type` is `nil`, which
is what the Go map yields for an expression it has no entry for.  The Go map is keyed by the
expression node; nodes carry their positions, so the distinct expressions of a parsed file
are distinct keys here as well. -/
structure Pass where
  Files : List Node
  Types : Node → Option GoType

/-- What a run mutates: the checked-variable map and the diagnostics handed to the host so
far, oldest first. -/
structure RunState where
  checkedVars : CheckedVars
  reports : List Diagnostic

/-- The call `pass.Reportf(pos, format, args...)` with the message already formatted: the
diagnostic is appended to the host's sink. -/
def Reportf (st : RunState) (pos : Pos) (message : String) : RunState :=
  { st with reports := st.reports ++ [{ pos := pos, message := message }] }

/-! ## src/cmd/nilseeker/main.go -/

/-- The type assertion `x.(*types.Pointer)` on an already computed type, as a test. -/
def GoType.isPointer : GoType → Bool
  | .Pointer _ => true
  | _ => false

/-- Returns a string description of the type for error messages (`typeKind`). -/
def typeKind : GoType → String
  | .Slice _ => "slice"
  | .Map _ _ => "map"
  | .Pointer _ => "pointer"
  | _ => "value"

/-- Checks for nil pointer dereferences in selector expressions (`checkSelectorExpr`). -/
def checkSelectorExpr (pass : Pass) (node : Node) (st : RunState) : RunState :=
  match node with
  | .SelectorExpr X _ =>
    match pass.Types X with
    | none => st
    | some exprType =>
      if exprType.Underlying.isPointer then
        match asIdent X with
        | some ident =>
          if !st.checkedVars.index ident.Name then
            Reportf st node.Pos
              ("potential nil pointer dereference: " ++ ident.Name ++ " may be nil")
          else st
        | none =>
          Reportf st node.Pos "potential nil pointer dereference in selector expression"
      else st
  | _ => st

/-- Checks explicit pointer dereferences (`checkStarExpr`). -/
def checkStarExpr (_pass : Pass) (node : Node) (st : RunState) : RunState :=
  match node with
  | .StarExpr _ X =>
    match asIdent X with
    | some ident =>
      if !st.checkedVars.index ident.Name then
        Reportf st node.Pos ("explicit dereference of possibly nil pointer: " ++ ident.Name)
      else st
    | none => Reportf st node.Pos "explicit dereference of possibly nil pointer"
  | _ => st

/-- The type switch `case *types.Slice, *types.Map` on an already computed type. -/
def GoType.isSliceOrMap : GoType → Bool
  | .Slice _ => true
  | .Map _ _ => true
  | _ => false

/-- Checks for potential nil slice or map indexing (`checkIndexExpr`). -/
def checkIndexExpr (pass : Pass) (node : Node) (st : RunState) : RunState :=
  match node with
  | .IndexExpr X _ =>
    match pass.Types X with
    | none => st
    | some exprType =>
      let underlying := exprType.Underlying
      if underlying.isSliceOrMap then
        match asIdent X with
        | some ident =>
          if !st.checkedVars.index ident.Name then
            Reportf st node.Pos
              ("indexing potentially nil " ++ typeKind underlying ++ ": " ++ ident.Name)
          else st
        | none => Reportf st node.Pos ("indexing potentially nil " ++ typeKind underlying)
      else st
  | _ => st

/-- Checks if an expression is the nil identifier (`isNilIdent`). -/
def isNilIdent (expr : Node) : Bool :=
  match asIdent expr with
  | some ident => ident.Name == "nil"
  | none => false

/-- Checks if an expression is an identifier (`isIdent`). -/
def isIdent (expr : Node) : Bool :=
  (asIdent expr).isSome

/-- Looks for nil checks in if statements and marks variables as checked
(`trackNilChecks`).  The local `ident` starts as the nil pointer (`none`); each of the two
unchecked assertions `.(*ast.Ident)` runs under `isIdent` and so cannot fault. -/
def trackNilChecks (node : Node) (checkedVars : CheckedVars) : CheckedVars :=
  match node with
  | .IfStmt _ _ Cond _ _ =>
    match Cond with
    | .BinaryExpr X Op Y =>
      if Op = Token.NEQ then
        let ident : Option Ident := none
        let ident := if isNilIdent X && isIdent Y then asIdent Y else ident
        let ident := if isNilIdent Y && isIdent X then asIdent X else ident
        match ident with
        | some id => checkedVars.assign id.Name true
        | none => checkedVars
      else checkedVars
    | _ => checkedVars
  | _ => checkedVars

/-! ## src/pkg/analyzer/analyzer.go -/

/-- The node kinds `run` registers with the inspector (`nodeFilter`). -/
def nodeFilter : Node → Bool
  | .SelectorExpr _ _ => true
  | .StarExpr _ _ => true
  | .IndexExpr _ _ => true
  | .CallExpr _ _ => true
  | .AssignStmt _ _ _ => true
  | .IfStmt _ _ _ _ _ => true
  | _ => false

/-- The callback `run` hands to `Preorder`: the type switch over the visited node.  Call
expressions and assignments are in the filter but match no case. -/
def visit (pass : Pass) (n : Node) (st : RunState) : RunState :=
  match n with
  | .SelectorExpr _ _ => checkSelectorExpr pass n st
  | .StarExpr _ _ => checkStarExpr pass n st
  | .IndexExpr _ _ => checkIndexExpr pass n st
  | .IfStmt _ _ _ _ _ => { st with checkedVars := trackNilChecks n st.checkedVars }
  | _ => st

/-- The nodes `inspector.Preorder(nodeFilter, f)` calls `f` on, in call order: the nodes of
all files in depth-first preorder, restricted to the filter. -/
def visited (files : List Node) : List Node :=
  (walkList files).filter nodeFilter

/-- The callback applied to a sequence of nodes, left to right. -/
def runOn (pass : Pass) (nodes : List Node) (st : RunState) : RunState :=
  nodes.foldl (fun s n => visit pass n s) st

/-- The state `run` starts from: `checkedVars := make(map[string]bool)` and a sink that has
received nothing. -/
def initState : RunState :=
  { checkedVars := CheckedVars.make, reports := [] }

/-- The analysis `run`: one preorder pass over the files with a fresh checked-variable map.
The Go function returns `(nil, nil)` after the traversal; what it has done is the final
state. -/
def run (pass : Pass) : RunState :=
  runOn pass (visited pass.Files) initState

/-! ## Vocabulary of the specification -/

/-- The guard pattern of the specification, section 4.2: the node is an if-statement whose
condition is `x != nil` or `nil != x` for the variable name `x`. -/
def guardsName (x : String) : Node → Bool
  | .IfStmt _ _ (.BinaryExpr (.Ident a) .NEQ (.Ident b)) _ _ =>
      (a.Name == x && b.Name == "nil") || (a.Name == "nil" && b.Name == x)
  | _ => false

/-- A dereference-shaped node (selector, explicit dereference, index expression) whose receiver
is the simple identifier `x`. -/
def derefOf (x : String) : Node → Bool
  | .SelectorExpr (.Ident id) _ => id.Name == x
  | .StarExpr _ (.Ident id) => id.Name == x
  | .IndexExpr (.Ident id) _ => id.Name == x
  | _ => false

/-- The type requirement of the classifier table, section 4.3, for a dereference-shaped node:
a member access needs a receiver whose resolved type reduces to pointer kind, an index
expression one that reduces to slice or map kind, an explicit dereference needs nothing. -/
def typeRequirement (pass : Pass) : Node → Bool
  | .SelectorExpr X _ =>
      match pass.Types X with
      | some t => t.Underlying.isPointer
      | none => false
  | .StarExpr _ _ => true
  | .IndexExpr X _ =>
      match pass.Types X with
      | some t => t.Underlying.isSliceOrMap
      | none => false
  | _ => false

/-- The message contains the text `part`. -/
def mentions (message part : String) : Prop :=
  part.data <:+: message.data

instance (message part : String) : Decidable (mentions message part) :=
  inferInstanceAs (Decidable (part.data <:+: message.data))

/-! ## Compilation units of the scenarios -/

/-- The declared type `T` of the scenarios, `type T struct{ Field int }`. -/
def typeT : GoType := .Named "T" .Struct

/-- The type information the type checker records for the scenario units: `p` and `*T` are
pointers to `T`, `s` is a `T`, the selected field is an `int`, `m` is a `map[string]int` and
`k` a `string`. -/
def scenarioTypes : Node → Option GoType
  | .Ident ⟨_, "p"⟩ => some (.Pointer typeT)
  | .Ident ⟨_, "s"⟩ => some typeT
  | .Ident ⟨_, "T"⟩ => some typeT
  | .Ident ⟨_, "int"⟩ => some (.Basic "int")
  | .Ident ⟨_, "nil"⟩ => some (.Basic "untyped nil")
  | .Ident ⟨_, "m"⟩ => some (.Map (.Basic "string") (.Basic "int"))
  | .Ident ⟨_, "k"⟩ => some (.Basic "string")
  | .StarExpr _ _ => some (.Pointer typeT)
  | .SelectorExpr _ _ => some (.Basic "int")
  | .BinaryExpr _ _ _ => some (.Basic "untyped bool")
  | _ => none

/-- The declaration `type T struct{ Field int }` at offset 12 of each scenario file. -/
def declT : Node :=
  .Other "GenDecl" 12 [.Other "TypeSpec" 17 [.Ident ⟨17, "T"⟩,
    .Other "StructType" 19 [.Other "FieldList" 25 [.Other "Field" 27
      [.Ident ⟨27, "Field"⟩, .Ident ⟨33, "int"⟩]]]]]

/-- A file `package a` holding `declT` and the function `func f()` with the given body. -/
def fileWithBody (body : List Node) : Node :=
  .Other "File" 1 [.Ident ⟨9, "a"⟩, declT,
    .Other "FuncDecl" 40 [.Ident ⟨45, "f"⟩,
      .Other "FuncType" 40 [.Other "FieldList" 46 []],
      .Other "BlockStmt" 49 body]]

/-- The type expression `*T` of `var p *T`: an `ast.StarExpr` at offset 58. -/
def starT : Node :=
  .StarExpr 58 (.Ident ⟨59, "T"⟩)

/-- The statement `var p *T`. -/
def varP : Node :=
  .Other "DeclStmt" 52 [.Other "GenDecl" 52 [.Other "ValueSpec" 56 [.Ident ⟨56, "p"⟩, starT]]]

/-- The member access `p.Field` of the unguarded unit, at offset 66. -/
def selUnguarded : Node :=
  .SelectorExpr (.Ident ⟨66, "p"⟩) ⟨68, "Field"⟩

/-- The statement `_ = p.Field` of the unguarded unit. -/
def useUnguarded : Node :=
  .AssignStmt [.Ident ⟨62, "_"⟩] .ASSIGN [selUnguarded]

/-- The unit `var p *T; p.Field`, the selector used as `_ = p.Field`:
the file is `package a; type T struct{ Field int }; func f() { var p *T; _ = p.Field }`. -/
def unitUnguarded : Pass :=
  { Files := [fileWithBody [varP, useUnguarded]], Types := scenarioTypes }

/-- The member access `p.Field` inside the guard, at offset 82. -/
def selGuarded : Node :=
  .SelectorExpr (.Ident ⟨82, "p"⟩) ⟨84, "Field"⟩

/-- The statement `_ = p.Field` inside the guard. -/
def useGuarded : Node :=
  .AssignStmt [.Ident ⟨78, "_"⟩] .ASSIGN [selGuarded]

/-- The statement `if p != nil { _ = p.Field }`. -/
def ifGuard : Node :=
  .IfStmt 62 none (.BinaryExpr (.Ident ⟨65, "p"⟩) .NEQ (.Ident ⟨70, "nil"⟩))
    (.Other "BlockStmt" 74 [useGuarded]) none

/-- The unit `var p *T; if p != nil { p.Field }`, the selector used as `_ = p.Field`. -/
def unitGuarded : Pass :=
  { Files := [fileWithBody [varP, ifGuard]], Types := scenarioTypes }

/-- The member access `s.Field` on a struct value, at offset 65. -/
def selStruct : Node :=
  .SelectorExpr (.Ident ⟨65, "s"⟩) ⟨67, "Field"⟩

/-- The statement `_ = s.Field`. -/
def useStruct : Node :=
  .AssignStmt [.Ident ⟨61, "_"⟩] .ASSIGN [selStruct]

/-- The unit `var s T; _ = s.Field`: a member access on a struct value, no guard and no
pointer type anywhere. -/
def unitStructValue : Pass :=
  { Files := [fileWithBody
      [.Other "DeclStmt" 52 [.Other "GenDecl" 52 [.Other "ValueSpec" 56
        [.Ident ⟨56, "s"⟩, .Ident ⟨58, "T"⟩]]], useStruct]],
    Types := scenarioTypes }

/-- The index expression `m[k]`, at offset 66. -/
def indexMK : Node :=
  .IndexExpr (.Ident ⟨66, "m"⟩) (.Ident ⟨68, "k"⟩)

/-- A pass whose type information is `scenarioTypes`, over no file: the classifiers read
nothing else of the pass. -/
def scenarioPass : Pass :=
  { Files := [], Types := scenarioTypes }

/-! ## Vocabulary of the specification, continued -/

/-- The receiver `node.X` of a dereference-shaped node. -/
def receiverOf : Node → Option Node
  | .SelectorExpr X _ => some X
  | .StarExpr _ X => some X
  | .IndexExpr X _ => some X
  | _ => none

/-- The diagnostics the visit of one node reports against a given checked-variable map:
what the visit adds to an empty sink. -/
def nodeDiagnostics (pass : Pass) (checkedVars : CheckedVars) (n : Node) : List Diagnostic :=
  (visit pass n { checkedVars := checkedVars, reports := [] }).reports

/-- The checked-variable map accumulated over a sequence of visited nodes, as the
specification describes it: the tracker applied to each if-statement in turn, nothing else. -/
def checkedAfter (checkedVars : CheckedVars) : List Node → CheckedVars
  | [] => checkedVars
  | .IfStmt i init cond body els :: ns =>
      checkedAfter (trackNilChecks (.IfStmt i init cond body els) checkedVars) ns
  | _ :: ns => checkedAfter checkedVars ns

/-- The diagnostics of a sequence of visited nodes, as the specification describes them: the
concatenation, in visit order, of the diagnostics of each node against the map accumulated
over the nodes before it. -/
def reportsOf (pass : Pass) (checkedVars : CheckedVars) : List Node → List Diagnostic
  | [] => []
  | n :: ns =>
      nodeDiagnostics pass checkedVars n ++ reportsOf pass (checkedAfter checkedVars [n]) ns

/-- The named message is the unnamed message of the same shape with a part that carries the
name taken out: `named = a ++ part ++ b` and `unnamed = a ++ b`, where `part` contains the
name. -/
def omitsOnlyName (named unnamed name : String) : Prop :=
  ∃ a part b : String, mentions part name ∧ named = a ++ part ++ b ∧ unnamed = a ++ b

/-- A map in which every name reads as checked. -/
def allChecked : CheckedVars := fun _ => some true

/-! ## Compilation units of the scenarios, continued -/

/-- Type information for the units over a slice parameter `x []int`. -/
def sliceTypes : Node → Option GoType
  | .Ident ⟨_, "x"⟩ => some (.Slice (.Basic "int"))
  | .Ident ⟨_, "int"⟩ => some (.Basic "int")
  | .Ident ⟨_, "nil"⟩ => some (.Basic "untyped nil")
  | .BasicLit _ _ => some (.Basic "untyped int")
  | .IndexExpr _ _ => some (.Basic "int")
  | .BinaryExpr _ _ _ => some (.Basic "untyped bool")
  | .Other "ArrayType" _ _ => some (.Slice (.Basic "int"))
  | _ => none

/-- The statement `if x != nil { }` of function `f`. -/
def ifX : Node :=
  .IfStmt 31 none (.BinaryExpr (.Ident ⟨34, "x"⟩) .NEQ (.Ident ⟨39, "nil"⟩))
    (.Other "BlockStmt" 43 []) none

/-- The index expression `x[0]` of function `g`, on the parameter `x` of `g`. -/
def indexX : Node :=
  .IndexExpr (.Ident ⟨81, "x"⟩) (.BasicLit 83 "0")

/-- The unit `func f(x []int) { if x != nil { } }; func g(x []int) int { return x[0] }`: the
two functions have a parameter `x` each. -/
def unitTwoFuncs : Pass :=
  { Files := [.Other "File" 1 [.Ident ⟨9, "a"⟩,
      .Other "FuncDecl" 12 [.Ident ⟨17, "f"⟩,
        .Other "FuncType" 12 [.Other "FieldList" 18 [.Other "Field" 19
          [.Ident ⟨19, "x"⟩, .Other "ArrayType" 21 [.Ident ⟨23, "int"⟩]]]],
        .Other "BlockStmt" 28 [ifX]],
      .Other "FuncDecl" 51 [.Ident ⟨56, "g"⟩,
        .Other "FuncType" 51 [
          .Other "FieldList" 57 [.Other "Field" 58
            [.Ident ⟨58, "x"⟩, .Other "ArrayType" 60 [.Ident ⟨62, "int"⟩]]],
          .Other "FieldList" 67 [.Other "Field" 67 [.Ident ⟨67, "int"⟩]]],
        .Other "BlockStmt" 71 [.Other "ReturnStmt" 74 [indexX]]]]],
    Types := sliceTypes }

/-- The member access `p.Field` of the else-branch, at offset 92. -/
def selElse : Node :=
  .SelectorExpr (.Ident ⟨92, "p"⟩) ⟨94, "Field"⟩

/-- The statement `_ = p.Field` of the else-branch. -/
def useElse : Node :=
  .AssignStmt [.Ident ⟨88, "_"⟩] .ASSIGN [selElse]

/-- The statement `if p != nil { } else { _ = p.Field }`. -/
def ifElse : Node :=
  .IfStmt 62 none (.BinaryExpr (.Ident ⟨65, "p"⟩) .NEQ (.Ident ⟨70, "nil"⟩))
    (.Other "BlockStmt" 74 []) (some (.Other "BlockStmt" 84 [useElse]))

/-- The unit `var p *T; if p != nil { } else { _ = p.Field }`. -/
def unitElse : Pass :=
  { Files := [fileWithBody [varP, ifElse]], Types := scenarioTypes }

/-- The statement `if p != nil { }` that follows the use of `p`. -/
def ifLate : Node :=
  .IfStmt 75 none (.BinaryExpr (.Ident ⟨78, "p"⟩) .NEQ (.Ident ⟨83, "nil"⟩))
    (.Other "BlockStmt" 87 []) none

/-- The unit `var p *T; _ = p.Field; if p != nil { }`: the use comes before the guard. -/
def unitLateGuard : Pass :=
  { Files := [fileWithBody [varP, useUnguarded, ifLate]], Types := scenarioTypes }

/-- Type information for the unit over an interface value `c C`. -/
def interfaceTypes : Node → Option GoType
  | .Ident ⟨_, "c"⟩ => some (.Named "C" .Interface)
  | .Ident ⟨_, "C"⟩ => some (.Named "C" .Interface)
  | .Ident ⟨_, "nil"⟩ => some (.Basic "untyped nil")
  | .SelectorExpr _ _ => some .Signature
  | .BinaryExpr _ _ _ => some (.Basic "untyped bool")
  | _ => none

/-- The method value `c.Close` on an interface value, at offset 60. -/
def selClose : Node :=
  .SelectorExpr (.Ident ⟨60, "c"⟩) ⟨62, "Close"⟩

/-- The statement `_ = c.Close`. -/
def useClose : Node :=
  .AssignStmt [.Ident ⟨56, "_"⟩] .ASSIGN [selClose]

/-- The statement `if c != nil { }` that follows the use of `c`. -/
def ifC : Node :=
  .IfStmt 69 none (.BinaryExpr (.Ident ⟨72, "c"⟩) .NEQ (.Ident ⟨77, "nil"⟩))
    (.Other "BlockStmt" 81 []) none

/-- The unit `type C interface{ Close() }; func f(c C) { _ = c.Close; if c != nil { } }`. -/
def unitInterface : Pass :=
  { Files := [.Other "File" 1 [.Ident ⟨9, "a"⟩,
      .Other "GenDecl" 12 [.Other "TypeSpec" 17 [.Ident ⟨17, "C"⟩,
        .Other "InterfaceType" 19 [.Other "FieldList" 28 [.Other "Field" 30
          [.Ident ⟨30, "Close"⟩, .Other "FuncType" 35 [.Other "FieldList" 35 []]]]]]],
      .Other "FuncDecl" 41 [.Ident ⟨46, "f"⟩,
        .Other "FuncType" 41 [.Other "FieldList" 47 [.Other "Field" 48
          [.Ident ⟨48, "c"⟩, .Ident ⟨50, "C"⟩]]],
        .Other "BlockStmt" 53 [useClose, ifC]]]],
    Types := interfaceTypes }

/-- Type information for receivers that wrap a variable: `(p)` and `p.a` are pointers to `T`,
`m[k]` is a slice (`m` being a `map[string][]int`). -/
def wrapTypes : Node → Option GoType
  | .ParenExpr _ (.Ident ⟨_, "p"⟩) => some (.Pointer typeT)
  | .SelectorExpr (.Ident ⟨_, "p"⟩) ⟨_, "a"⟩ => some (.Pointer typeT)
  | .IndexExpr (.Ident ⟨_, "m"⟩) _ => some (.Slice (.Basic "int"))
  | .Ident ⟨_, "m"⟩ => some (.Map (.Basic "string") (.Slice (.Basic "int")))
  | e => scenarioTypes e

/-- A pass whose type information is `wrapTypes`, over no file. -/
def wrapPass : Pass :=
  { Files := [], Types := wrapTypes }

/-- The explicit dereference `*(p)`. -/
def starParen : Node :=
  .StarExpr 1 (.ParenExpr 2 (.Ident ⟨3, "p"⟩))

/-- The member access `(p).Field`. -/
def selParen : Node :=
  .SelectorExpr (.ParenExpr 1 (.Ident ⟨2, "p"⟩)) ⟨5, "Field"⟩

/-- The member access `p.a.b`, whose receiver is the member access `p.a`. -/
def selNested : Node :=
  .SelectorExpr (.SelectorExpr (.Ident ⟨1, "p"⟩) ⟨3, "a"⟩) ⟨5, "b"⟩

/-- The index expression `m[k][j]`, whose receiver is the index expression `m[k]`. -/
def indexNested : Node :=
  .IndexExpr (.IndexExpr (.Ident ⟨1, "m"⟩) (.Ident ⟨3, "k"⟩)) (.Ident ⟨6, "j"⟩)

/-- The explicit dereference `*(f())` of a call result. -/
def starCall : Node :=
  .StarExpr 1 (.ParenExpr 2 (.CallExpr (.Ident ⟨3, "f"⟩) []))

/-- The member access `u.f` on an identifier the type checker has no type for. -/
def selUnresolved : Node :=
  .SelectorExpr (.Ident ⟨1, "u"⟩) ⟨3, "f"⟩

/-- The index expression `u[k]` on an identifier the type checker has no type for. -/
def indexUnresolved : Node :=
  .IndexExpr (.Ident ⟨1, "u"⟩) (.Ident ⟨3, "k"⟩)

/-- The statement `_ = *x` at offset `p`: the explicit dereference sits at offset `p + 4`. -/
def derefStmt (x : String) (p : Pos) : Node :=
  .AssignStmt [.Ident ⟨p, "_"⟩] .ASSIGN [.StarExpr (p + 4) (.Ident ⟨p + 5, x⟩)]

/-- A file body made of the statements `_ = *x`, one at each of the given offsets (the same
offset may occur more than once). -/
def derefBlock (x : String) (offsets : List Pos) : Node :=
  .Other "BlockStmt" 0 (offsets.map (derefStmt x))

/-! ## Basic facts about the map and the sink -/

theorem index_make (x : String) : CheckedVars.make.index x = false := rfl

theorem index_assign (m : CheckedVars) (name x : String) (v : Bool) :
    (m.assign name v).index x = if x = name then v else m.index x := by
  unfold CheckedVars.index CheckedVars.assign
  by_cases h : x = name <;> simp [h]

theorem asIdent_eq_some {n : Node} {id : Ident} : asIdent n = some id ↔ n = .Ident id := by
  cases n <;> simp [asIdent]

theorem runOn_append (pass : Pass) (a b : List Node) (st : RunState) :
    runOn pass (a ++ b) st = runOn pass b (runOn pass a st) := by
  simp [runOn, List.foldl_append]

theorem runOn_cons (pass : Pass) (n : Node) (ns : List Node) (st : RunState) :
    runOn pass (n :: ns) st = runOn pass ns (visit pass n st) := rfl

theorem runOn_nil (pass : Pass) (st : RunState) : runOn pass [] st = st := rfl

/-! ## The classifiers never write the map -/

theorem checkSelectorExpr_checkedVars (pass : Pass) (node : Node) (st : RunState) :
    (checkSelectorExpr pass node st).checkedVars = st.checkedVars := by
  unfold checkSelectorExpr
  repeat (first | rfl | split)

theorem checkStarExpr_checkedVars (pass : Pass) (node : Node) (st : RunState) :
    (checkStarExpr pass node st).checkedVars = st.checkedVars := by
  unfold checkStarExpr
  repeat (first | rfl | split)

theorem checkIndexExpr_checkedVars (pass : Pass) (node : Node) (st : RunState) :
    (checkIndexExpr pass node st).checkedVars = st.checkedVars := by
  unfold checkIndexExpr
  dsimp only
  repeat (first | rfl | split)

theorem visit_checkedVars_of_not_if (pass : Pass) (n : Node) (st : RunState)
    (h : ∀ i init c b e, n ≠ .IfStmt i init c b e) :
    (visit pass n st).checkedVars = st.checkedVars := by
  cases n <;>
    first
    | exact checkSelectorExpr_checkedVars _ _ _
    | exact checkStarExpr_checkedVars _ _ _
    | exact checkIndexExpr_checkedVars _ _ _
    | exact absurd rfl (h _ _ _ _ _)
    | rfl

/-! ## What the tracker writes -/

theorem trackNilChecks_idents (i : Pos) (init : Option Node) (a b : Ident) (body : Node)
    (els : Option Node) (s : CheckedVars) :
    trackNilChecks (.IfStmt i init (.BinaryExpr (.Ident a) .NEQ (.Ident b)) body els) s =
      if b.Name = "nil" then s.assign a.Name true
      else if a.Name = "nil" then s.assign b.Name true else s := by
  by_cases ha : a.Name = "nil" <;> by_cases hb : b.Name = "nil" <;>
    simp [trackNilChecks, isNilIdent, isIdent, asIdent, ha, hb]

/-- The tracker marks exactly the names the guard pattern matches. -/
theorem trackNilChecks_index (n : Node) (s : CheckedVars) (x : String) :
    (trackNilChecks n s).index x = true ↔ s.index x = true ∨ guardsName x n = true := by
  cases n with
  | IfStmt i init c b e =>
    cases c with
    | BinaryExpr X op Y =>
      by_cases hop : op = Token.NEQ
      · subst hop
        cases X with
        | Ident a =>
          cases Y with
          | Ident b =>
            obtain ⟨pa, na⟩ := a
            obtain ⟨pb, nb⟩ := b
            rw [trackNilChecks_idents]
            simp only [guardsName, Bool.or_eq_true, Bool.and_eq_true, beq_iff_eq]
            by_cases hb : nb = "nil"
            · subst hb
              simp only [if_true, index_assign]
              by_cases hx : x = na
              · subst hx; simp
              · have hx2 : ¬ na = x := fun h => hx h.symm
                simp [hx, hx2]
                intro h1 h2; exact absurd (h2.symm.trans h1.symm) hx
            · simp only [hb, if_false]
              by_cases ha : na = "nil"
              · subst ha
                simp only [if_true, index_assign]
                by_cases hx : x = nb
                · subst hx; simp
                · have hx2 : ¬ nb = x := fun h => hx h.symm
                  simp [hx, hx2]
              · simp [ha]
          | _ => simp [trackNilChecks, guardsName, isNilIdent, isIdent, asIdent]
        | _ => simp [trackNilChecks, guardsName, isNilIdent, isIdent, asIdent]
      · cases op <;> first | exact absurd rfl hop | simp [trackNilChecks, guardsName]
    | _ => simp [trackNilChecks, guardsName]
  | _ => simp [trackNilChecks, guardsName]

theorem guardsName_of_not_if (x : String) (n : Node)
    (h : ∀ i init c b e, n ≠ .IfStmt i init c b e) : guardsName x n = false := by
  cases n <;> first | exact absurd rfl (h _ _ _ _ _) | rfl

theorem visit_index (pass : Pass) (n : Node) (st : RunState) (x : String) :
    (visit pass n st).checkedVars.index x = true ↔
      st.checkedVars.index x = true ∨ guardsName x n = true := by
  by_cases h : ∀ i init c b e, n ≠ .IfStmt i init c b e
  · rw [visit_checkedVars_of_not_if pass n st h, guardsName_of_not_if x n h]
    simp
  · push_neg at h
    obtain ⟨i, init, c, b, e, rfl⟩ := h
    exact trackNilChecks_index (.IfStmt i init c b e) st.checkedVars x

theorem runOn_index (pass : Pass) (nodes : List Node) (st : RunState) (x : String) :
    (runOn pass nodes st).checkedVars.index x = true ↔
      st.checkedVars.index x = true ∨ ∃ g ∈ nodes, guardsName x g = true := by
  induction nodes generalizing st with
  | nil => simp [runOn_nil]
  | cons n ns ih =>
    rw [runOn_cons, ih, visit_index]
    simp only [List.mem_cons, exists_eq_or_imp]
    tauto


theorem mentions_middle (a x b : String) : mentions (a ++ x ++ b) x := by
  unfold mentions
  refine ⟨a.data, b.data, ?_⟩
  simp [String.data_append]

theorem mentions_end (a x : String) : mentions (a ++ x) x := by
  unfold mentions
  refine ⟨a.data, [], ?_⟩
  simp [String.data_append]

/-- A dereference-shaped node whose identifier receiver is marked checked is passed over:
the visit changes nothing. -/
theorem visit_checked_deref (pass : Pass) (n : Node) (x : String) (st : RunState)
    (hn : derefOf x n = true) (hx : st.checkedVars.index x = true) :
    visit pass n st = st := by
  cases n with
  | SelectorExpr X Sel =>
    cases X with
    | Ident id =>
      have hid : id.Name = x := by simpa [derefOf] using hn
      subst hid
      simp only [visit, checkSelectorExpr, asIdent, hx]
      cases pass.Types (.Ident id) with
      | none => rfl
      | some t => cases t.Underlying.isPointer <;> simp
    | _ => simp [derefOf] at hn
  | StarExpr star X =>
    cases X with
    | Ident id =>
      have hid : id.Name = x := by simpa [derefOf] using hn
      subst hid
      simp [visit, checkStarExpr, asIdent, hx]
    | _ => simp [derefOf] at hn
  | IndexExpr X Index =>
    cases X with
    | Ident id =>
      have hid : id.Name = x := by simpa [derefOf] using hn
      subst hid
      simp only [visit, checkIndexExpr, asIdent, hx]
      cases pass.Types (.Ident id) with
      | none => rfl
      | some t => cases t.Underlying.isSliceOrMap <;> simp
    | _ => simp [derefOf] at hn
  | _ => simp [derefOf] at hn

/-- A dereference-shaped node whose identifier receiver is not marked checked and whose type
requirement holds gets one diagnostic, at the node, naming the receiver. -/
theorem visit_unchecked_deref (pass : Pass) (n : Node) (x : String) (st : RunState)
    (hn : derefOf x n = true) (ht : typeRequirement pass n = true)
    (hx : st.checkedVars.index x = false) :
    ∃ d : Diagnostic, visit pass n st = ⟨st.checkedVars, st.reports ++ [d]⟩ ∧
      d.pos = n.Pos ∧ mentions d.message x := by
  cases n with
  | SelectorExpr X Sel =>
    cases X with
    | Ident id =>
      have hid : id.Name = x := by simpa [derefOf] using hn
      subst hid
      cases hty : pass.Types (.Ident id) with
      | none => simp [typeRequirement, hty] at ht
      | some t =>
        have hp : t.Underlying.isPointer = true := by simpa [typeRequirement, hty] using ht
        exact ⟨⟨Node.Pos (.SelectorExpr (.Ident id) Sel),
            "potential nil pointer dereference: " ++ id.Name ++ " may be nil"⟩,
          by simp [visit, checkSelectorExpr, asIdent, hx, hty, hp, Reportf], rfl,
          mentions_middle _ _ _⟩
    | _ => simp [derefOf] at hn
  | StarExpr star X =>
    cases X with
    | Ident id =>
      have hid : id.Name = x := by simpa [derefOf] using hn
      subst hid
      exact ⟨⟨Node.Pos (.StarExpr star (.Ident id)),
          "explicit dereference of possibly nil pointer: " ++ id.Name⟩,
        by simp [visit, checkStarExpr, asIdent, hx, Reportf], rfl, mentions_end _ _⟩
    | _ => simp [derefOf] at hn
  | IndexExpr X Index =>
    cases X with
    | Ident id =>
      have hid : id.Name = x := by simpa [derefOf] using hn
      subst hid
      cases hty : pass.Types (.Ident id) with
      | none => simp [typeRequirement, hty] at ht
      | some t =>
        have hp : t.Underlying.isSliceOrMap = true := by simpa [typeRequirement, hty] using ht
        exact ⟨⟨Node.Pos (.IndexExpr (.Ident id) Index),
            "indexing potentially nil " ++ typeKind t.Underlying ++ ": " ++ id.Name⟩,
          by simp [visit, checkIndexExpr, asIdent, hx, hty, hp, Reportf], rfl,
          mentions_end _ _⟩
    | _ => simp [derefOf] at hn
  | _ => simp [derefOf] at hn

/-- A run is the visit of the nodes before a node, of the node, and of the nodes after it. -/
theorem run_split (pass : Pass) (pre post : List Node) (n : Node)
    (h : visited pass.Files = pre ++ n :: post) :
    run pass = runOn pass post (visit pass n (runOn pass pre initState)) := by
  unfold run
  rw [h, runOn_append, runOn_cons]

/-! ## Claims about guarded and unguarded dereferences -/

/-- C1: in any run, a selector, explicit dereference or index expression whose receiver is
the identifier `x`, visited after an if-statement whose condition is `x != nil` or
`nil != x`, adds no diagnostic: the sink is the same before and after the visit of that
node. -/
theorem guarded_deref_not_reported (pass : Pass) (pre post : List Node) (n : Node)
    (x : String) (hrun : visited pass.Files = pre ++ n :: post)
    (hn : derefOf x n = true) (hg : ∃ g ∈ pre, guardsName x g = true) :
    (visit pass n (runOn pass pre initState)).reports = (runOn pass pre initState).reports ∧
      run pass = runOn pass post (visit pass n (runOn pass pre initState)) := by
  refine ⟨?_, run_split pass pre post n hrun⟩
  have hx : (runOn pass pre initState).checkedVars.index x = true :=
    (runOn_index pass pre initState x).mpr (Or.inr hg)
  rw [visit_checked_deref pass n x _ hn hx]

theorem guarded_deref_not_reported_witness :
    visited unitGuarded.Files = [starT, ifGuard, useGuarded] ++ selGuarded :: [] ∧
      derefOf "p" selGuarded = true ∧
      (visit unitGuarded selGuarded
          (runOn unitGuarded [starT, ifGuard, useGuarded] initState)).reports
        = (runOn unitGuarded [starT, ifGuard, useGuarded] initState).reports :=
  ⟨rfl, rfl,
    (guarded_deref_not_reported unitGuarded [starT, ifGuard, useGuarded] [] selGuarded "p"
      rfl rfl ⟨ifGuard, by simp, rfl⟩).1⟩

/-- C2, as stated, fails: in the unit `var s T; _ = s.Field` the member access `s.Field` has
the identifier receiver `s`, no guard occurs anywhere in the run, and yet the visit of the
node reports nothing, because the receiver is not of pointer kind. -/
theorem struct_member_access_not_reported :
    visited unitStructValue.Files = [useStruct] ++ selStruct :: [] ∧
      derefOf "s" selStruct = true ∧
      (∀ g ∈ visited unitStructValue.Files, guardsName "s" g = false) ∧
      (run unitStructValue).reports = [] ∧
      ¬ ∃ d : Diagnostic,
        (visit unitStructValue selStruct (runOn unitStructValue [useStruct] initState)).reports
          = (runOn unitStructValue [useStruct] initState).reports ++ [d] ∧
        mentions d.message "s" := by
  refine ⟨rfl, rfl, ?_, by decide, ?_⟩
  · intro g hg
    have hv : visited unitStructValue.Files = [useStruct, selStruct] := rfl
    rw [hv] at hg
    simp only [List.mem_cons, List.mem_singleton, List.not_mem_nil, or_false] at hg
    rcases hg with rfl | rfl <;> rfl
  · rintro ⟨d, hd, -⟩
    have h0 : (visit unitStructValue selStruct
        (runOn unitStructValue [useStruct] initState)).reports = [] := by decide
    have h1 : (runOn unitStructValue [useStruct] initState).reports = [] := by decide
    rw [h0, h1] at hd
    simp at hd

/-- C2, amended: in any run, a selector, explicit dereference or index expression whose
receiver is the identifier `x`, with no guard on `x` anywhere in the run, and whose type
requirement holds (member access: receiver resolved to pointer kind; index: receiver resolved
to slice or map kind; explicit dereference: none), adds exactly one diagnostic, at the
position of the node, and its message contains the name `x`. -/
theorem unguarded_typed_deref_reported_once (pass : Pass) (pre post : List Node) (n : Node)
    (x : String) (hrun : visited pass.Files = pre ++ n :: post)
    (hn : derefOf x n = true)
    (hg : ∀ g ∈ visited pass.Files, guardsName x g = false)
    (ht : typeRequirement pass n = true) :
    (∃ d : Diagnostic,
      (visit pass n (runOn pass pre initState)).reports
        = (runOn pass pre initState).reports ++ [d] ∧
      d.pos = n.Pos ∧ mentions d.message x) ∧
      run pass = runOn pass post (visit pass n (runOn pass pre initState)) := by
  refine ⟨?_, run_split pass pre post n hrun⟩
  have hx : (runOn pass pre initState).checkedVars.index x = false := by
    rw [← Bool.not_eq_true, runOn_index]
    rintro (h | ⟨g, hgpre, hgx⟩)
    · simp [initState, index_make] at h
    · have hmem : g ∈ visited pass.Files := by
        rw [hrun]; exact List.mem_append_left _ hgpre
      rw [hg g hmem] at hgx
      exact Bool.false_ne_true hgx
  obtain ⟨d, hd, hpos, hmsg⟩ := visit_unchecked_deref pass n x _ hn ht hx
  exact ⟨d, by rw [hd], hpos, hmsg⟩

theorem unguarded_typed_deref_reported_once_witness :
    visited unitUnguarded.Files = [starT, useUnguarded] ++ selUnguarded :: [] ∧
      derefOf "p" selUnguarded = true ∧
      typeRequirement unitUnguarded selUnguarded = true ∧
      ∃ d : Diagnostic,
        (visit unitUnguarded selUnguarded
            (runOn unitUnguarded [starT, useUnguarded] initState)).reports
          = (runOn unitUnguarded [starT, useUnguarded] initState).reports ++ [d] ∧
        d.pos = selUnguarded.Pos ∧ mentions d.message "p" :=
  ⟨rfl, rfl, rfl,
    (unguarded_typed_deref_reported_once unitUnguarded [starT, useUnguarded] []
      selUnguarded "p" rfl rfl
      (by
        intro g hg
        have hv : visited unitUnguarded.Files = [starT, useUnguarded, selUnguarded] := rfl
        rw [hv] at hg
        simp only [List.mem_cons, List.mem_singleton, List.not_mem_nil, or_false] at hg
        rcases hg with rfl | rfl | rfl <;> rfl)
      rfl).1⟩

/-- C3: the run over `var p *T; p.Field` reports two diagnostics, not one: the type
expression `*T` of the declaration is an `ast.StarExpr` and is reported as an explicit
dereference of `T` (position 58) before the member access `p.Field` is reported
(position 66, the position of the selector expression, naming `p`). -/
theorem run_unitUnguarded :
    (run unitUnguarded).reports =
      [⟨58, "explicit dereference of possibly nil pointer: T"⟩,
       ⟨66, "potential nil pointer dereference: p may be nil"⟩] ∧
      selUnguarded.Pos = 66 ∧ (run unitUnguarded).reports.length = 2 := by
  decide

/-- C4: the run over `var p *T; if p != nil { p.Field }` reports one diagnostic, not zero:
the guarded member access is passed over, but the type expression `*T` of the declaration is
reported as an explicit dereference of `T` (position 58). -/
theorem run_unitGuarded :
    (run unitGuarded).reports = [⟨58, "explicit dereference of possibly nil pointer: T"⟩] ∧
      (run unitGuarded).reports.length = 1 := by
  decide

/-- C5: for every identifier `x` and every starting map `s`, `trackNilChecks` on an
if-statement with condition `x != nil` and on one with condition `nil != x` yields the same
map, `s` with `x` bound to true, in which `x` reads as checked. -/
theorem guard_operand_order (x : String) (s : CheckedVars) (i j px pn qx qn : Pos)
    (init1 init2 : Option Node) (body1 body2 : Node) (els1 els2 : Option Node) :
    trackNilChecks
        (.IfStmt i init1 (.BinaryExpr (.Ident ⟨px, x⟩) .NEQ (.Ident ⟨pn, "nil"⟩)) body1 els1) s
      = s.assign x true ∧
    trackNilChecks
        (.IfStmt j init2 (.BinaryExpr (.Ident ⟨qn, "nil"⟩) .NEQ (.Ident ⟨qx, x⟩)) body2 els2) s
      = s.assign x true ∧
    (s.assign x true).index x = true := by
  refine ⟨?_, ?_, ?_⟩
  · rw [trackNilChecks_idents]; simp
  · rw [trackNilChecks_idents]
    by_cases hx : x = "nil"
    · subst hx; simp
    · simp [hx]
  · simp [index_assign]

/-! ## Claims about the tracker -/

/-- C6: for every if-statement whose condition is not a binary `!=` comparison with the nil
identifier on one side and an identifier on the other, `trackNilChecks` returns the map it was
given. -/
theorem unrecognized_condition_keeps_map (i : Pos) (init : Option Node) (cond body : Node)
    (els : Option Node) (s : CheckedVars)
    (h : ¬ ∃ a b : Ident, cond = .BinaryExpr (.Ident a) .NEQ (.Ident b) ∧
      (a.Name = "nil" ∨ b.Name = "nil")) :
    trackNilChecks (.IfStmt i init cond body els) s = s := by
  cases cond with
  | BinaryExpr X op Y =>
    by_cases hop : op = Token.NEQ
    · subst hop
      cases X with
      | Ident a =>
        cases Y with
        | Ident b =>
          have hab : ¬ (a.Name = "nil" ∨ b.Name = "nil") := fun hn => h ⟨a, b, rfl, hn⟩
          rw [trackNilChecks_idents]
          simp only [not_or] at hab
          simp [hab.1, hab.2]
        | _ => simp [trackNilChecks, isNilIdent, isIdent, asIdent]
      | _ => simp [trackNilChecks, isNilIdent, isIdent, asIdent]
    · cases op <;> first | exact absurd rfl hop | simp [trackNilChecks]
  | _ => simp [trackNilChecks]

theorem unrecognized_condition_keeps_map_witness :
    -- `x == nil`
    trackNilChecks (.IfStmt 1 none
        (.BinaryExpr (.Ident ⟨4, "x"⟩) .EQL (.Ident ⟨9, "nil"⟩)) (.Other "BlockStmt" 13 []) none)
        CheckedVars.make = CheckedVars.make ∧
    -- `!(x == nil)`
    trackNilChecks (.IfStmt 1 none
        (.UnaryExpr 4 .NOT (.ParenExpr 5 (.BinaryExpr (.Ident ⟨6, "x"⟩) .EQL (.Ident ⟨11, "nil"⟩))))
        (.Other "BlockStmt" 16 []) none) CheckedVars.make = CheckedVars.make ∧
    -- `x != nil && y != nil`
    trackNilChecks (.IfStmt 1 none
        (.BinaryExpr (.BinaryExpr (.Ident ⟨4, "x"⟩) .NEQ (.Ident ⟨9, "nil"⟩)) .LAND
          (.BinaryExpr (.Ident ⟨16, "y"⟩) .NEQ (.Ident ⟨21, "nil"⟩)))
        (.Other "BlockStmt" 25 []) none) CheckedVars.make = CheckedVars.make ∧
    -- `x != nil || c`
    trackNilChecks (.IfStmt 1 none
        (.BinaryExpr (.BinaryExpr (.Ident ⟨4, "x"⟩) .NEQ (.Ident ⟨9, "nil"⟩)) .LOR
          (.Ident ⟨16, "c"⟩))
        (.Other "BlockStmt" 18 []) none) CheckedVars.make = CheckedVars.make ∧
    -- `isSet(x)`, a helper predicate
    trackNilChecks (.IfStmt 1 none
        (.CallExpr (.Ident ⟨4, "isSet"⟩) [.Ident ⟨10, "x"⟩])
        (.Other "BlockStmt" 13 []) none) CheckedVars.make = CheckedVars.make ∧
    -- `x.(bool)`, a type assertion
    trackNilChecks (.IfStmt 1 none
        (.TypeAssertExpr (.Ident ⟨4, "x"⟩) (some (.Ident ⟨7, "bool"⟩)))
        (.Other "BlockStmt" 13 []) none) CheckedVars.make = CheckedVars.make ∧
    -- `x != y`
    trackNilChecks (.IfStmt 1 none
        (.BinaryExpr (.Ident ⟨4, "x"⟩) .NEQ (.Ident ⟨9, "y"⟩))
        (.Other "BlockStmt" 11 []) none) CheckedVars.make = CheckedVars.make ∧
    -- `(x != nil)`
    trackNilChecks (.IfStmt 1 none
        (.ParenExpr 4 (.BinaryExpr (.Ident ⟨5, "x"⟩) .NEQ (.Ident ⟨10, "nil"⟩)))
        (.Other "BlockStmt" 15 []) none) CheckedVars.make = CheckedVars.make :=
  ⟨unrecognized_condition_keeps_map _ _ _ _ _ _ (by rintro ⟨a, b, h, -⟩; cases h),
   unrecognized_condition_keeps_map _ _ _ _ _ _ (by rintro ⟨a, b, h, -⟩; cases h),
   unrecognized_condition_keeps_map _ _ _ _ _ _ (by rintro ⟨a, b, h, -⟩; cases h),
   unrecognized_condition_keeps_map _ _ _ _ _ _ (by rintro ⟨a, b, h, -⟩; cases h),
   unrecognized_condition_keeps_map _ _ _ _ _ _ (by rintro ⟨a, b, h, -⟩; cases h),
   unrecognized_condition_keeps_map _ _ _ _ _ _ (by rintro ⟨a, b, h, -⟩; cases h),
   unrecognized_condition_keeps_map _ _ _ _ _ _
     (by rintro ⟨a, b, h, hn⟩; cases h; revert hn; decide),
   unrecognized_condition_keeps_map _ _ _ _ _ _ (by rintro ⟨a, b, h, -⟩; cases h)⟩

/-- C7: a name that reads as checked before the visit of a node (of any kind) reads as checked
after it, and so it does after the visit of any further sequence of nodes, wherever those
nodes lie in the tree. -/
theorem checked_stays_checked (pass : Pass) (n : Node) (nodes : List Node) (st : RunState)
    (name : String) (h : st.checkedVars.index name = true) :
    (visit pass n st).checkedVars.index name = true ∧
      (runOn pass nodes st).checkedVars.index name = true :=
  ⟨(visit_index pass n st name).mpr (Or.inl h),
   (runOn_index pass nodes st name).mpr (Or.inl h)⟩

theorem checked_stays_checked_witness :
    (runOn unitGuarded [starT, ifGuard] initState).checkedVars.index "p" = true ∧
      (visit unitGuarded useGuarded
        (runOn unitGuarded [starT, ifGuard] initState)).checkedVars.index "p" = true ∧
      (runOn unitGuarded [useGuarded, selGuarded, selUnguarded]
        (runOn unitGuarded [starT, ifGuard] initState)).checkedVars.index "p" = true :=
  ⟨rfl, checked_stays_checked unitGuarded useGuarded [useGuarded, selGuarded, selUnguarded]
    (runOn unitGuarded [starT, ifGuard] initState) "p" rfl⟩

/-! ## Claims about the classifiers -/

theorem isSliceOrMap_iff (t : GoType) :
    t.isSliceOrMap = true ↔ (∃ e, t = .Slice e) ∨ (∃ k e, t = .Map k e) := by
  cases t <;> simp [GoType.isSliceOrMap]

theorem isPointer_iff (t : GoType) : t.isPointer = true ↔ ∃ b, t = .Pointer b := by
  cases t <;> simp [GoType.isPointer]

theorem asIdent_eq_none {n : Node} : asIdent n = none ↔ ∀ id, n ≠ .Ident id := by
  cases n <;> simp [asIdent]

theorem typeKind_of_isSliceOrMap (t : GoType) (h : t.isSliceOrMap = true) :
    (∃ e, t = .Slice e) ∧ typeKind t = "slice" ∨ (∃ k e, t = .Map k e) ∧ typeKind t = "map" := by
  cases t <;> simp [GoType.isSliceOrMap, typeKind] at h ⊢

/-- What `checkIndexExpr` does, case by case. -/
theorem checkIndexExpr_cases (pass : Pass) (X Index : Node) (st : RunState) :
    (checkIndexExpr pass (.IndexExpr X Index) st = st ∧
        ((pass.Types X = none ∨ ∃ t, pass.Types X = some t ∧ t.Underlying.isSliceOrMap = false) ∨
          ∃ id, X = .Ident id ∧ st.checkedVars.index id.Name = true)) ∨
      (∃ t, pass.Types X = some t ∧ t.Underlying.isSliceOrMap = true ∧
        ((∃ id, X = .Ident id ∧ st.checkedVars.index id.Name = false ∧
            checkIndexExpr pass (.IndexExpr X Index) st =
              ⟨st.checkedVars, st.reports ++ [⟨X.Pos,
                "indexing potentially nil " ++ typeKind t.Underlying ++ ": " ++ id.Name⟩]⟩) ∨
          ((∀ id, X ≠ .Ident id) ∧
            checkIndexExpr pass (.IndexExpr X Index) st =
              ⟨st.checkedVars, st.reports ++ [⟨X.Pos,
                "indexing potentially nil " ++ typeKind t.Underlying⟩]⟩))) := by
  cases hty : pass.Types X with
  | none => left; simp [checkIndexExpr, hty]
  | some t =>
    cases hk : t.Underlying.isSliceOrMap with
    | false => left; simp [checkIndexExpr, hty, hk]
    | true =>
      cases hid : asIdent X with
      | none =>
        right
        refine ⟨t, rfl, hk, Or.inr ⟨asIdent_eq_none.mp hid, ?_⟩⟩
        simp [checkIndexExpr, hty, hk, hid, Reportf, Node.Pos]
      | some id =>
        have hX : X = .Ident id := asIdent_eq_some.mp hid
        cases hc : st.checkedVars.index id.Name with
        | true => left; exact ⟨by simp [checkIndexExpr, hty, hk, hid, hc], Or.inr ⟨id, hX, hc⟩⟩
        | false =>
          right
          refine ⟨t, rfl, hk, Or.inl ⟨id, hX, hc, ?_⟩⟩
          simp [checkIndexExpr, hty, hk, hid, hc, Reportf, Node.Pos]

/-- What `checkSelectorExpr` does, case by case. -/
theorem checkSelectorExpr_cases (pass : Pass) (X : Node) (Sel : Ident) (st : RunState) :
    (checkSelectorExpr pass (.SelectorExpr X Sel) st = st ∧
        ((pass.Types X = none ∨ ∃ t, pass.Types X = some t ∧ t.Underlying.isPointer = false) ∨
          ∃ id, X = .Ident id ∧ st.checkedVars.index id.Name = true)) ∨
      (∃ t, pass.Types X = some t ∧ t.Underlying.isPointer = true ∧
        ((∃ id, X = .Ident id ∧ st.checkedVars.index id.Name = false ∧
            checkSelectorExpr pass (.SelectorExpr X Sel) st =
              ⟨st.checkedVars, st.reports ++ [⟨X.Pos,
                "potential nil pointer dereference: " ++ id.Name ++ " may be nil"⟩]⟩) ∨
          ((∀ id, X ≠ .Ident id) ∧
            checkSelectorExpr pass (.SelectorExpr X Sel) st =
              ⟨st.checkedVars, st.reports ++ [⟨X.Pos,
                "potential nil pointer dereference in selector expression"⟩]⟩))) := by
  cases hty : pass.Types X with
  | none => left; simp [checkSelectorExpr, hty]
  | some t =>
    cases hk : t.Underlying.isPointer with
    | false => left; simp [checkSelectorExpr, hty, hk]
    | true =>
      cases hid : asIdent X with
      | none =>
        right
        refine ⟨t, rfl, hk, Or.inr ⟨asIdent_eq_none.mp hid, ?_⟩⟩
        simp [checkSelectorExpr, hty, hk, hid, Reportf, Node.Pos]
      | some id =>
        have hX : X = .Ident id := asIdent_eq_some.mp hid
        cases hc : st.checkedVars.index id.Name with
        | true =>
          left; exact ⟨by simp [checkSelectorExpr, hty, hk, hid, hc], Or.inr ⟨id, hX, hc⟩⟩
        | false =>
          right
          refine ⟨t, rfl, hk, Or.inl ⟨id, hX, hc, ?_⟩⟩
          simp [checkSelectorExpr, hty, hk, hid, hc, Reportf, Node.Pos]

/-- C8: for every index expression `x[i]`, type information and state, `checkIndexExpr`
appends a list `ds` of at most one diagnostic and leaves the map alone; `ds` has one element
if and only if the receiver's resolved type has an underlying slice or map type and the
receiver is not an identifier that reads as checked. -/
theorem checkIndexExpr_decision (pass : Pass) (X Index : Node) (st : RunState) :
    ∃ ds : List Diagnostic,
      checkIndexExpr pass (.IndexExpr X Index) st = ⟨st.checkedVars, st.reports ++ ds⟩ ∧
      ds.length ≤ 1 ∧
      (ds.length = 1 ↔
        (∃ t, pass.Types X = some t ∧
            ((∃ e, t.Underlying = .Slice e) ∨ (∃ k e, t.Underlying = .Map k e))) ∧
          ¬ ∃ id, X = .Ident id ∧ st.checkedVars.index id.Name = true) := by
  rcases checkIndexExpr_cases pass X Index st with
    ⟨heq, hwhy⟩ | ⟨t, hty, hk, ⟨id, hX, hc, heq⟩ | ⟨hX, heq⟩⟩
  · refine ⟨[], by simp [heq], by simp, ?_⟩
    simp only [List.length_nil, Nat.zero_ne_one, false_iff, not_and, not_not]
    rintro ⟨t, hty, hk⟩
    rcases hwhy with (h | ⟨u, hu, hf⟩) | h
    · simp [hty] at h
    · rw [hty] at hu
      cases hu
      rw [(isSliceOrMap_iff _).mpr hk] at hf
      exact absurd hf (by decide)
    · exact h
  · refine ⟨[_], heq, by simp, ?_⟩
    simp only [List.length_singleton, true_iff]
    refine ⟨⟨t, hty, (isSliceOrMap_iff _).mp hk⟩, ?_⟩
    rintro ⟨id2, hX2, hc2⟩
    rw [hX] at hX2
    cases hX2
    rw [hc] at hc2
    exact absurd hc2 (by decide)
  · refine ⟨[_], heq, by simp, ?_⟩
    simp only [List.length_singleton, true_iff]
    exact ⟨⟨t, hty, (isSliceOrMap_iff _).mp hk⟩, fun ⟨id2, hX2, _⟩ => hX id2 hX2⟩

/-- C9: a diagnostic `d` appended by `checkIndexExpr` carries the kind of the receiver's
underlying type, which is "slice" for a slice and "map" for a map and is never "pointer" or
"value": the message is the fixed text followed by that kind, and for an identifier receiver
(then unchecked) by a colon and its name, which the message contains; for a receiver that is
not an identifier the message contains neither "pointer" nor "value". -/
theorem index_message_names_kind (pass : Pass) (X Index : Node) (st : RunState)
    (d : Diagnostic)
    (h : (checkIndexExpr pass (.IndexExpr X Index) st).reports = st.reports ++ [d]) :
    ∃ t, pass.Types X = some t ∧
      ((∃ e, t.Underlying = .Slice e) ∧ typeKind t.Underlying = "slice" ∨
        (∃ k e, t.Underlying = .Map k e) ∧ typeKind t.Underlying = "map") ∧
      typeKind t.Underlying ≠ "pointer" ∧ typeKind t.Underlying ≠ "value" ∧
      mentions d.message (typeKind t.Underlying) ∧
      ((∃ id, X = .Ident id ∧ st.checkedVars.index id.Name = false ∧
          d.message = "indexing potentially nil " ++ typeKind t.Underlying ++ ": " ++ id.Name ∧
          mentions d.message id.Name) ∨
        ((∀ id, X ≠ .Ident id) ∧
          d.message = "indexing potentially nil " ++ typeKind t.Underlying ∧
          ¬ mentions d.message "pointer" ∧ ¬ mentions d.message "value")) := by
  rcases checkIndexExpr_cases pass X Index st with
    ⟨heq, -⟩ | ⟨t, hty, hk, hcase⟩
  · rw [heq] at h
    have := congrArg List.length h
    simp at this
  · have hkind := typeKind_of_isSliceOrMap _ hk
    have hne : typeKind t.Underlying ≠ "pointer" ∧ typeKind t.Underlying ≠ "value" := by
      rcases hkind with ⟨-, hs⟩ | ⟨-, hs⟩ <;> rw [hs] <;> decide
    refine ⟨t, hty, hkind, hne.1, hne.2, ?_⟩
    rcases hcase with ⟨id, hX, hc, heq⟩ | ⟨hX, heq⟩
    · rw [heq] at h
      have hd : d = ⟨X.Pos,
          "indexing potentially nil " ++ typeKind t.Underlying ++ ": " ++ id.Name⟩ := by
        simpa using (List.append_cancel_left h).symm
      subst hd
      refine ⟨?_, Or.inl ⟨id, hX, hc, rfl, mentions_end _ _⟩⟩
      show mentions ("indexing potentially nil " ++ typeKind t.Underlying ++ ": " ++ id.Name) _
      rw [String.append_assoc]
      exact mentions_middle _ _ _
    · rw [heq] at h
      have hd : d = ⟨X.Pos, "indexing potentially nil " ++ typeKind t.Underlying⟩ := by
        simpa using (List.append_cancel_left h).symm
      subst hd
      refine ⟨mentions_end _ _, Or.inr ⟨hX, rfl, ?_⟩⟩
      rcases hkind with ⟨-, hs⟩ | ⟨-, hs⟩ <;> simp only [hs] <;> decide

theorem index_message_names_kind_witness :
    (checkIndexExpr scenarioPass indexMK initState).reports
        = initState.reports ++ [⟨66, "indexing potentially nil map: m"⟩] ∧
      ∃ t, scenarioPass.Types (.Ident ⟨66, "m"⟩) = some t ∧
        ((∃ e, t.Underlying = .Slice e) ∧ typeKind t.Underlying = "slice" ∨
          (∃ k e, t.Underlying = .Map k e) ∧ typeKind t.Underlying = "map") ∧
        mentions "indexing potentially nil map: m" (typeKind t.Underlying) := by
  have h := index_message_names_kind scenarioPass (.Ident ⟨66, "m"⟩) (.Ident ⟨68, "k"⟩)
    initState ⟨66, "indexing potentially nil map: m"⟩ rfl
  obtain ⟨t, h1, h2, -, -, h3, -⟩ := h
  exact ⟨rfl, t, h1, h2, h3⟩

/-- C10: for every member access `x.sel`, type information and state, `checkSelectorExpr`
appends a list `ds` of at most one diagnostic and leaves the map alone; `ds` has one element
if and only if the receiver's type is resolved, its underlying type is a pointer (as for a
named type declared from a pointer type) and the receiver is not an identifier that reads as
checked; for a receiver that is not an identifier the appended diagnostic is the one without
a name, and the map plays no part. -/
theorem checkSelectorExpr_decision (pass : Pass) (X : Node) (Sel : Ident) (st : RunState) :
    (∃ ds : List Diagnostic,
      checkSelectorExpr pass (.SelectorExpr X Sel) st = ⟨st.checkedVars, st.reports ++ ds⟩ ∧
      ds.length ≤ 1 ∧
      (ds.length = 1 ↔
        (∃ t, pass.Types X = some t ∧ ∃ b, t.Underlying = .Pointer b) ∧
          ¬ ∃ id, X = .Ident id ∧ st.checkedVars.index id.Name = true) ∧
      (ds = [] ∨ (∃ id, X = .Ident id) ∨
        ds = [⟨X.Pos, "potential nil pointer dereference in selector expression"⟩])) ∧
    (∀ (name : String) (b : GoType), (GoType.Named name (.Pointer b)).Underlying = .Pointer b) ∧
    ((∃ id, X = .Ident id) ∨ ∀ cv : CheckedVars,
      (checkSelectorExpr pass (.SelectorExpr X Sel) ⟨cv, st.reports⟩).reports
        = (checkSelectorExpr pass (.SelectorExpr X Sel) st).reports) := by
  refine ⟨?_, fun _ _ => rfl, ?_⟩
  · rcases checkSelectorExpr_cases pass X Sel st with
      ⟨heq, hwhy⟩ | ⟨t, hty, hk, ⟨id, hX, hc, heq⟩ | ⟨hX, heq⟩⟩
    · refine ⟨[], by simp [heq], by simp, ?_, Or.inl rfl⟩
      simp only [List.length_nil, Nat.zero_ne_one, false_iff, not_and, not_not]
      rintro ⟨t, hty, hk⟩
      rcases hwhy with (h | ⟨u, hu, hf⟩) | h
      · simp [hty] at h
      · rw [hty] at hu
        cases hu
        rw [(isPointer_iff _).mpr hk] at hf
        exact absurd hf (by decide)
      · exact h
    · refine ⟨[_], heq, by simp, ?_, Or.inr (Or.inl ⟨id, hX⟩)⟩
      simp only [List.length_singleton, true_iff]
      refine ⟨⟨t, hty, (isPointer_iff _).mp hk⟩, ?_⟩
      rintro ⟨id2, hX2, hc2⟩
      rw [hX] at hX2
      cases hX2
      rw [hc] at hc2
      exact absurd hc2 (by decide)
    · refine ⟨[_], heq, by simp, ?_, Or.inr (Or.inr rfl)⟩
      simp only [List.length_singleton, true_iff]
      exact ⟨⟨t, hty, (isPointer_iff _).mp hk⟩, fun ⟨id2, hX2, _⟩ => hX id2 hX2⟩
  · cases hid : asIdent X with
    | some id => exact Or.inl ⟨id, asIdent_eq_some.mp hid⟩
    | none =>
      right
      intro cv
      cases hty : pass.Types X with
      | none => simp [checkSelectorExpr, hty]
      | some t => cases hk : t.Underlying.isPointer <;>
          simp [checkSelectorExpr, hty, hk, hid, Reportf]

/-! ## The sink only grows, one visit at a time -/

theorem checkStarExpr_cases (pass : Pass) (star : Pos) (X : Node) (st : RunState) :
    (∃ id, X = .Ident id ∧ st.checkedVars.index id.Name = true ∧
        checkStarExpr pass (.StarExpr star X) st = st) ∨
      (∃ id, X = .Ident id ∧ st.checkedVars.index id.Name = false ∧
        checkStarExpr pass (.StarExpr star X) st =
          ⟨st.checkedVars, st.reports ++
            [⟨star, "explicit dereference of possibly nil pointer: " ++ id.Name⟩]⟩) ∨
      ((∀ id, X ≠ .Ident id) ∧
        checkStarExpr pass (.StarExpr star X) st =
          ⟨st.checkedVars, st.reports ++
            [⟨star, "explicit dereference of possibly nil pointer"⟩]⟩) := by
  cases hid : asIdent X with
  | none =>
    right; right
    exact ⟨asIdent_eq_none.mp hid, by simp [checkStarExpr, hid, Reportf, Node.Pos]⟩
  | some id =>
    have hX : X = .Ident id := asIdent_eq_some.mp hid
    cases hc : st.checkedVars.index id.Name with
    | true => left; exact ⟨id, hX, hc, by simp [checkStarExpr, hid, hc]⟩
    | false =>
      right; left
      exact ⟨id, hX, hc, by simp [checkStarExpr, hid, hc, Reportf, Node.Pos]⟩

/-- Each classifier appends to the sink what it would add to an empty one. -/
theorem checkSelectorExpr_frame (pass : Pass) (n : Node) (cv : CheckedVars)
    (rs : List Diagnostic) :
    checkSelectorExpr pass n ⟨cv, rs⟩ =
      ⟨cv, rs ++ (checkSelectorExpr pass n ⟨cv, []⟩).reports⟩ := by
  cases n with
  | SelectorExpr X Sel =>
    simp only [checkSelectorExpr]
    cases pass.Types X with
    | none => simp
    | some t =>
      cases hk : t.Underlying.isPointer with
      | false => simp [hk]
      | true =>
        cases hid : asIdent X with
        | none => simp [hk, Reportf]
        | some id => cases hc : cv.index id.Name <;> simp [hk, hc, Reportf]
  | _ => simp [checkSelectorExpr]

theorem checkStarExpr_frame (pass : Pass) (n : Node) (cv : CheckedVars)
    (rs : List Diagnostic) :
    checkStarExpr pass n ⟨cv, rs⟩ = ⟨cv, rs ++ (checkStarExpr pass n ⟨cv, []⟩).reports⟩ := by
  cases n with
  | StarExpr star X =>
    simp only [checkStarExpr]
    cases hid : asIdent X with
    | none => simp [Reportf]
    | some id => cases hc : cv.index id.Name <;> simp [hc, Reportf]
  | _ => simp [checkStarExpr]

theorem checkIndexExpr_frame (pass : Pass) (n : Node) (cv : CheckedVars)
    (rs : List Diagnostic) :
    checkIndexExpr pass n ⟨cv, rs⟩ = ⟨cv, rs ++ (checkIndexExpr pass n ⟨cv, []⟩).reports⟩ := by
  cases n with
  | IndexExpr X Index =>
    simp only [checkIndexExpr]
    cases pass.Types X with
    | none => simp
    | some t =>
      cases hk : t.Underlying.isSliceOrMap with
      | false => simp [hk]
      | true =>
        cases hid : asIdent X with
        | none => simp [hk, Reportf]
        | some id => cases hc : cv.index id.Name <;> simp [hk, hc, Reportf]
  | _ => simp [checkIndexExpr]

/-- A visit moves the map as the tracker prescribes and appends the diagnostics of the
node. -/
theorem visit_frame (pass : Pass) (n : Node) (cv : CheckedVars) (rs : List Diagnostic) :
    visit pass n ⟨cv, rs⟩ = ⟨checkedAfter cv [n], rs ++ nodeDiagnostics pass cv n⟩ := by
  cases n with
  | SelectorExpr X Sel =>
    simpa [visit, nodeDiagnostics, checkedAfter] using checkSelectorExpr_frame pass _ cv rs
  | StarExpr star X =>
    simpa [visit, nodeDiagnostics, checkedAfter] using checkStarExpr_frame pass _ cv rs
  | IndexExpr X Index =>
    simpa [visit, nodeDiagnostics, checkedAfter] using checkIndexExpr_frame pass _ cv rs
  | _ => simp [visit, nodeDiagnostics, checkedAfter]

theorem checkedAfter_cons (cv : CheckedVars) (n : Node) (ns : List Node) :
    checkedAfter cv (n :: ns) = checkedAfter (checkedAfter cv [n]) ns := by
  cases n <;> rfl

/-- A sequence of visits moves the map as the tracker prescribes and appends the diagnostics
of the nodes, in order. -/
theorem runOn_frame (pass : Pass) (nodes : List Node) (cv : CheckedVars)
    (rs : List Diagnostic) :
    runOn pass nodes ⟨cv, rs⟩ = ⟨checkedAfter cv nodes, rs ++ reportsOf pass cv nodes⟩ := by
  induction nodes generalizing cv rs with
  | nil => simp [runOn_nil, checkedAfter, reportsOf]
  | cons n ns ih =>
    rw [runOn_cons, visit_frame, ih, checkedAfter_cons cv n ns]
    simp [reportsOf, List.append_assoc]

theorem nodeDiagnostics_length_le (pass : Pass) (cv : CheckedVars) (n : Node) :
    (nodeDiagnostics pass cv n).length ≤ 1 := by
  cases n with
  | SelectorExpr X Sel =>
    rcases checkSelectorExpr_cases pass X Sel ⟨cv, []⟩ with
      ⟨heq, -⟩ | ⟨t, hty, hk, ⟨id, hX, hc, heq⟩ | ⟨hX, heq⟩⟩ <;>
    simp [nodeDiagnostics, visit, heq]
  | StarExpr star X =>
    rcases checkStarExpr_cases pass star X ⟨cv, []⟩ with
      ⟨id, hX, hc, heq⟩ | ⟨id, hX, hc, heq⟩ | ⟨hX, heq⟩ <;>
    simp [nodeDiagnostics, visit, heq]
  | IndexExpr X Index =>
    rcases checkIndexExpr_cases pass X Index ⟨cv, []⟩ with
      ⟨heq, -⟩ | ⟨t, hty, hk, ⟨id, hX, hc, heq⟩ | ⟨hX, heq⟩⟩ <;>
    simp [nodeDiagnostics, visit, heq]
  | _ => simp [nodeDiagnostics, visit]

/-! ## Claims about the explicit dereference, unresolved types and inert nodes -/

/-- C11: `checkStarExpr` returns the same state under any two passes (it never reads the type
information); it appends a list `ds` of at most one diagnostic, empty exactly when the
operand is an identifier that reads as checked; and for an operand that is not an identifier,
as in `*(f())`, it appends the one diagnostic with the fixed text that carries no name,
whatever the map holds. -/
theorem checkStarExpr_needs_no_types (pass1 pass2 : Pass) (star : Pos) (X : Node)
    (st : RunState) :
    checkStarExpr pass1 (.StarExpr star X) st = checkStarExpr pass2 (.StarExpr star X) st ∧
    (∃ ds : List Diagnostic,
      checkStarExpr pass1 (.StarExpr star X) st = ⟨st.checkedVars, st.reports ++ ds⟩ ∧
      ds.length ≤ 1 ∧
      (ds = [] ↔ ∃ id, X = .Ident id ∧ st.checkedVars.index id.Name = true)) ∧
    ((∃ id, X = .Ident id) ∨ ∀ cv : CheckedVars,
      checkStarExpr pass1 (.StarExpr star X) ⟨cv, st.reports⟩ =
        ⟨cv, st.reports ++ [⟨star, "explicit dereference of possibly nil pointer"⟩]⟩) ∧
    checkStarExpr pass1 starCall ⟨allChecked, st.reports⟩ =
      ⟨allChecked, st.reports ++ [⟨1, "explicit dereference of possibly nil pointer"⟩]⟩ := by
  refine ⟨rfl, ?_, ?_, rfl⟩
  · rcases checkStarExpr_cases pass1 star X st with
      ⟨id, hX, hc, heq⟩ | ⟨id, hX, hc, heq⟩ | ⟨hX, heq⟩
    · exact ⟨[], by simp [heq], by simp, by simp; exact ⟨id, hX, hc⟩⟩
    · refine ⟨[_], heq, by simp, ?_⟩
      simp only [List.cons_ne_nil, false_iff]
      rintro ⟨id2, hX2, hc2⟩
      rw [hX] at hX2
      cases hX2
      rw [hc] at hc2
      exact absurd hc2 (by decide)
    · refine ⟨[_], heq, by simp, ?_⟩
      simp only [List.cons_ne_nil, false_iff]
      exact fun ⟨id2, hX2, _⟩ => hX id2 hX2
  · cases hid : asIdent X with
    | some id => exact Or.inl ⟨id, asIdent_eq_some.mp hid⟩
    | none =>
      right
      intro cv
      simp [checkStarExpr, hid, Reportf, Node.Pos]

/-- C12: when the type information has no type for the receiver, `checkSelectorExpr` and
`checkIndexExpr` return the state they were given: no diagnostic, the map untouched, for every
receiver and every map. -/
theorem unresolved_receiver_skipped (pass : Pass) (X Index : Node) (Sel : Ident)
    (st : RunState) (h : pass.Types X = none) :
    checkSelectorExpr pass (.SelectorExpr X Sel) st = st ∧
      checkIndexExpr pass (.IndexExpr X Index) st = st := by
  simp [checkSelectorExpr, checkIndexExpr, h]

theorem unresolved_receiver_skipped_witness :
    scenarioPass.Types (.Ident ⟨1, "u"⟩) = none ∧
      initState.checkedVars.index "u" = false ∧
      checkSelectorExpr scenarioPass selUnresolved initState = initState ∧
      checkIndexExpr scenarioPass indexUnresolved initState = initState :=
  ⟨rfl, rfl,
    unresolved_receiver_skipped scenarioPass (.Ident ⟨1, "u"⟩) (.Ident ⟨3, "k"⟩) ⟨3, "f"⟩
      initState rfl⟩

/-- C13: call expressions and assignment statements are registered with the inspector, and
the visit of either returns the state it was given, whatever the node holds: no diagnostic,
the map untouched. -/
theorem call_and_assignment_inert (pass : Pass) (f : Node) (args lhs rhs : List Node)
    (tok : Token) (st : RunState) :
    nodeFilter (.CallExpr f args) = true ∧ nodeFilter (.AssignStmt lhs tok rhs) = true ∧
      visit pass (.CallExpr f args) st = st ∧ visit pass (.AssignStmt lhs tok rhs) st = st :=
  ⟨rfl, rfl, rfl, rfl⟩

/-! ## Claims about the run as a whole -/

theorem visited_derefBlock (x : String) (offsets : List Pos) :
    visited [derefBlock x offsets] =
      offsets.flatMap fun p => [derefStmt x p, .StarExpr (p + 4) (.Ident ⟨p + 5, x⟩)] := by
  have h : ∀ l : List Pos, (walkList (l.map (derefStmt x))).filter nodeFilter =
      l.flatMap fun p => [derefStmt x p, .StarExpr (p + 4) (.Ident ⟨p + 5, x⟩)] := by
    intro l
    induction l with
    | nil => rfl
    | cons p l ih =>
      simp only [List.map_cons, walkList, List.filter_append, ih, List.flatMap_cons]
      rfl
  simp only [visited, derefBlock, walkList, Node.walk, List.append_nil, List.filter_cons]
  simpa [nodeFilter] using h offsets

theorem runOn_derefs (pass : Pass) (x : String) (offsets : List Pos) (cv : CheckedVars)
    (rs : List Diagnostic) (hx : cv.index x = false) :
    runOn pass
        (offsets.flatMap fun p => [derefStmt x p, .StarExpr (p + 4) (.Ident ⟨p + 5, x⟩)])
        ⟨cv, rs⟩ =
      ⟨cv, rs ++ offsets.map fun p =>
        ⟨p + 4, "explicit dereference of possibly nil pointer: " ++ x⟩⟩ := by
  induction offsets generalizing rs with
  | nil => simp [runOn_nil]
  | cons p l ih =>
    simp only [List.flatMap_cons, runOn_append, runOn_cons, runOn_nil]
    have h1 : visit pass (derefStmt x p) ⟨cv, rs⟩ = ⟨cv, rs⟩ := rfl
    have h2 : visit pass (.StarExpr (p + 4) (.Ident ⟨p + 5, x⟩)) ⟨cv, rs⟩ =
        ⟨cv, rs ++ [⟨p + 4, "explicit dereference of possibly nil pointer: " ++ x⟩]⟩ := by
      simp [visit, checkStarExpr, asIdent, hx, Reportf, Node.Pos]
    rw [h1, h2, ih]
    simp

/-- C14: the diagnostics of a run are the concatenation, over the visited nodes in preorder,
of the diagnostics of each node (none or one) against the map accumulated over the nodes
before it; nothing is merged or dropped: a body of `k` statements `_ = *x` at the given
offsets, equal offsets included, yields `k` diagnostics, one per statement, in order. -/
theorem reports_in_traversal_order (pass : Pass) :
    (run pass).reports = reportsOf pass CheckedVars.make (visited pass.Files) ∧
    (∀ (cv : CheckedVars) (n : Node), (nodeDiagnostics pass cv n).length ≤ 1) ∧
    ∀ (x : String) (offsets : List Pos),
      (run ⟨[derefBlock x offsets], pass.Types⟩).reports =
        offsets.map fun p => ⟨p + 4, "explicit dereference of possibly nil pointer: " ++ x⟩ := by
  refine ⟨?_, nodeDiagnostics_length_le pass, ?_⟩
  · simp [run, initState, runOn_frame]
  · intro x offsets
    simp only [run]
    rw [visited_derefBlock, initState, runOn_derefs _ _ _ _ _ (index_make x)]
    simp

/-- C19: the three classifiers return the map they were given, the visit of an if-statement
leaves the sink as it was, and the map after any sequence of visits is the tracker applied to
the if-statements of the sequence, so it is the same under any other pass and any other
sink. -/
theorem tracker_and_classifiers_disjoint (pass pass2 : Pass) (n : Node) (nodes : List Node)
    (st : RunState) (rs2 : List Diagnostic) :
    (checkSelectorExpr pass n st).checkedVars = st.checkedVars ∧
    (checkStarExpr pass n st).checkedVars = st.checkedVars ∧
    (checkIndexExpr pass n st).checkedVars = st.checkedVars ∧
    (∀ i init c b e, (visit pass (.IfStmt i init c b e) st).reports = st.reports) ∧
    (runOn pass nodes st).checkedVars = checkedAfter st.checkedVars nodes ∧
    (runOn pass2 nodes ⟨st.checkedVars, rs2⟩).checkedVars = (runOn pass nodes st).checkedVars :=
  ⟨checkSelectorExpr_checkedVars pass n st, checkStarExpr_checkedVars pass n st,
   checkIndexExpr_checkedVars pass n st, fun _ _ _ _ _ => rfl,
   by rw [show st = ⟨st.checkedVars, st.reports⟩ from rfl, runOn_frame],
   by rw [show st = ⟨st.checkedVars, st.reports⟩ from rfl, runOn_frame, runOn_frame]⟩

/-- C20: in any run, a star expression whose operand is an identifier `T`, a type name
included, gets the diagnostic "explicit dereference of possibly nil pointer: T" at its
position when no guard on the name `T` was visited before it, and that diagnostic is among
the diagnostics of the run, which therefore has at least one; when a guard on the name `T`
was visited before it, the node gets none. -/
theorem pointer_type_expression_reported (pass : Pass) (pre post : List Node) (star : Pos)
    (id : Ident) (hrun : visited pass.Files = pre ++ .StarExpr star (.Ident id) :: post) :
    ((∀ g ∈ pre, guardsName id.Name g = false) →
      (visit pass (.StarExpr star (.Ident id)) (runOn pass pre initState)).reports =
          (runOn pass pre initState).reports ++
            [⟨star, "explicit dereference of possibly nil pointer: " ++ id.Name⟩] ∧
        (⟨star, "explicit dereference of possibly nil pointer: " ++ id.Name⟩ : Diagnostic)
          ∈ (run pass).reports ∧
        1 ≤ (run pass).reports.length) ∧
    ((∃ g ∈ pre, guardsName id.Name g = true) →
      (visit pass (.StarExpr star (.Ident id)) (runOn pass pre initState)).reports =
        (runOn pass pre initState).reports) := by
  constructor
  · intro hg
    have hx : (runOn pass pre initState).checkedVars.index id.Name = false := by
      rw [← Bool.not_eq_true, runOn_index]
      rintro (h | ⟨g, hgpre, hgx⟩)
      · simp [initState, index_make] at h
      · rw [hg g hgpre] at hgx
        exact Bool.false_ne_true hgx
    have hv : (visit pass (.StarExpr star (.Ident id)) (runOn pass pre initState)).reports =
        (runOn pass pre initState).reports ++
          [⟨star, "explicit dereference of possibly nil pointer: " ++ id.Name⟩] := by
      simp [visit, checkStarExpr, asIdent, hx, Reportf, Node.Pos]
    have hmem : (⟨star, "explicit dereference of possibly nil pointer: " ++ id.Name⟩ :
        Diagnostic) ∈ (run pass).reports := by
      rw [run_split pass pre post _ hrun,
        show visit pass (.StarExpr star (.Ident id)) (runOn pass pre initState) =
          ⟨(visit pass (.StarExpr star (.Ident id)) (runOn pass pre initState)).checkedVars,
           (visit pass (.StarExpr star (.Ident id)) (runOn pass pre initState)).reports⟩
          from rfl, runOn_frame, hv]
      simp
    exact ⟨hv, hmem, List.length_pos_of_mem hmem⟩
  · intro hg
    have hx : (runOn pass pre initState).checkedVars.index id.Name = true :=
      (runOn_index pass pre initState id.Name).mpr (Or.inr hg)
    rw [visit_checked_deref pass _ id.Name _ (by simp [derefOf]) hx]

theorem pointer_type_expression_reported_witness :
    visited unitUnguarded.Files = [] ++ .StarExpr 58 (.Ident ⟨59, "T"⟩) ::
        [useUnguarded, selUnguarded] ∧
      (⟨58, "explicit dereference of possibly nil pointer: T"⟩ : Diagnostic)
        ∈ (run unitUnguarded).reports ∧
      1 ≤ (run unitUnguarded).reports.length :=
  ⟨rfl,
    ((pointer_type_expression_reported unitUnguarded [] [useUnguarded, selUnguarded] 58
      ⟨59, "T"⟩ rfl).1 (by simp)).2⟩

/-! ## Subtrees are contiguous in the preorder -/

theorem contiguous_wrap {m : List Node} {w : List Node} (a b : List Node)
    (h : ∃ pre post, w = pre ++ m ++ post) :
    ∃ pre post, a ++ w ++ b = pre ++ m ++ post := by
  obtain ⟨pre, post, rfl⟩ := h
  exact ⟨a ++ pre, post ++ b, by simp [List.append_assoc]⟩

mutual
theorem walk_contiguous (n m : Node) (h : m ∈ n.walk) :
    ∃ pre post, n.walk = pre ++ m.walk ++ post :=
  match n with
  | .Ident id => by
    simp only [Node.walk, List.mem_singleton] at h
    subst h
    exact ⟨[], [], by simp⟩
  | .BasicLit p v => by
    simp only [Node.walk, List.mem_singleton] at h
    subst h
    exact ⟨[], [], by simp⟩
  | .ParenExpr lp X => by
    simp only [Node.walk, List.mem_cons] at h
    rcases h with rfl | h
    · exact ⟨[], [], by simp⟩
    · simpa [Node.walk] using contiguous_wrap [.ParenExpr lp X] [] (walk_contiguous X m h)
  | .SelectorExpr X Sel => by
    simp only [Node.walk, List.mem_cons, List.mem_append, List.not_mem_nil, or_false] at h
    rcases h with rfl | h | rfl
    · exact ⟨[], [], by simp⟩
    · simpa [Node.walk] using
        contiguous_wrap [.SelectorExpr X Sel] [.Ident Sel] (walk_contiguous X m h)
    · exact ⟨.SelectorExpr X Sel :: X.walk, [], by simp [Node.walk]⟩
  | .IndexExpr X Index => by
    simp only [Node.walk, List.mem_cons, List.mem_append] at h
    rcases h with rfl | h | h
    · exact ⟨[], [], by simp⟩
    · simpa [Node.walk] using contiguous_wrap [.IndexExpr X Index] Index.walk (walk_contiguous X m h)
    · simpa [Node.walk] using
        contiguous_wrap (.IndexExpr X Index :: X.walk) [] (walk_contiguous Index m h)
  | .StarExpr star X => by
    simp only [Node.walk, List.mem_cons] at h
    rcases h with rfl | h
    · exact ⟨[], [], by simp⟩
    · simpa [Node.walk] using contiguous_wrap [.StarExpr star X] [] (walk_contiguous X m h)
  | .CallExpr f Args => by
    simp only [Node.walk, List.mem_cons, List.mem_append] at h
    rcases h with rfl | h | h
    · exact ⟨[], [], by simp⟩
    · simpa [Node.walk] using contiguous_wrap [.CallExpr f Args] (walkList Args) (walk_contiguous f m h)
    · simpa [Node.walk] using
        contiguous_wrap (.CallExpr f Args :: f.walk) [] (walkList_contiguous Args m h)
  | .UnaryExpr p op X => by
    simp only [Node.walk, List.mem_cons] at h
    rcases h with rfl | h
    · exact ⟨[], [], by simp⟩
    · simpa [Node.walk] using contiguous_wrap [.UnaryExpr p op X] [] (walk_contiguous X m h)
  | .BinaryExpr X op Y => by
    simp only [Node.walk, List.mem_cons, List.mem_append] at h
    rcases h with rfl | h | h
    · exact ⟨[], [], by simp⟩
    · simpa [Node.walk] using contiguous_wrap [.BinaryExpr X op Y] (Y.walk) (walk_contiguous X m h)
    · simpa [Node.walk] using contiguous_wrap (.BinaryExpr X op Y :: X.walk) [] (walk_contiguous Y m h)
  | .TypeAssertExpr X T => by
    simp only [Node.walk, List.mem_cons, List.mem_append] at h
    rcases h with rfl | h | h
    · exact ⟨[], [], by simp⟩
    · simpa [Node.walk] using contiguous_wrap [.TypeAssertExpr X T] (walkOpt T) (walk_contiguous X m h)
    · simpa [Node.walk] using contiguous_wrap (.TypeAssertExpr X T :: X.walk) [] (walkOpt_contiguous T m h)
  | .AssignStmt Lhs tok Rhs => by
    simp only [Node.walk, List.mem_cons, List.mem_append] at h
    rcases h with rfl | h | h
    · exact ⟨[], [], by simp⟩
    · simpa [Node.walk] using contiguous_wrap [.AssignStmt Lhs tok Rhs] (walkList Rhs) (walkList_contiguous Lhs m h)
    · simpa [Node.walk] using contiguous_wrap (.AssignStmt Lhs tok Rhs :: walkList Lhs) [] (walkList_contiguous Rhs m h)
  | .IfStmt i Init Cond Body Else => by
    simp only [Node.walk, List.mem_cons, List.mem_append] at h
    rcases h with rfl | ((h | h) | h) | h
    · exact ⟨[], [], by simp⟩
    · simpa [Node.walk] using
        contiguous_wrap [.IfStmt i Init Cond Body Else] (Cond.walk ++ Body.walk ++ walkOpt Else)
          (walkOpt_contiguous Init m h)
    · simpa [Node.walk] using
        contiguous_wrap (.IfStmt i Init Cond Body Else :: walkOpt Init) (Body.walk ++ walkOpt Else)
          (walk_contiguous Cond m h)
    · simpa [Node.walk] using
        contiguous_wrap (.IfStmt i Init Cond Body Else :: (walkOpt Init ++ Cond.walk))
          (walkOpt Else) (walk_contiguous Body m h)
    · simpa [Node.walk] using
        contiguous_wrap (.IfStmt i Init Cond Body Else :: (walkOpt Init ++ Cond.walk ++ Body.walk))
          [] (walkOpt_contiguous Else m h)
  | .Other k p cs => by
    simp only [Node.walk, List.mem_cons] at h
    rcases h with rfl | h
    · exact ⟨[], [], by simp⟩
    · simpa [Node.walk] using contiguous_wrap [.Other k p cs] [] (walkList_contiguous cs m h)
theorem walkList_contiguous (ns : List Node) (m : Node) (h : m ∈ walkList ns) :
    ∃ pre post, walkList ns = pre ++ m.walk ++ post :=
  match ns with
  | [] => by simp [walkList] at h
  | n :: rest => by
    simp only [walkList, List.mem_append] at h
    rcases h with h | h
    · simpa [walkList] using contiguous_wrap [] (walkList rest) (walk_contiguous n m h)
    · simpa [walkList] using contiguous_wrap n.walk [] (walkList_contiguous rest m h)
theorem walkOpt_contiguous (o : Option Node) (m : Node) (h : m ∈ walkOpt o) :
    ∃ pre post, walkOpt o = pre ++ m.walk ++ post :=
  match o with
  | none => by simp [walkOpt] at h
  | some n => by
    simp only [walkOpt] at h
    simpa [walkOpt] using walk_contiguous n m h
end

/-! ## Claims about names, scopes and receivers -/

theorem omitsOnlyName_suffix (u name : String) :
    omitsOnlyName (u ++ ": " ++ name) u name :=
  ⟨u, ": " ++ name, "", mentions_end _ _, by simp [String.append_assoc], by simp⟩

theorem selector_messages_differ (la lp lb : List Char)
    (h1 : "potential nil pointer dereference: p may be nil".data = la ++ lp ++ lb)
    (h2 : "potential nil pointer dereference in selector expression".data = la ++ lb) :
    False := by
  rcases List.eq_nil_or_concat lb with rfl | ⟨l, c, rfl⟩
  · rw [List.append_nil] at h1 h2
    have hp : "potential nil pointer dereference in selector expression".data <+:
        "potential nil pointer dereference: p may be nil".data := ⟨lp, by rw [h1, h2]⟩
    exact absurd hp (by decide)
  · have e1 : "potential nil pointer dereference: p may be nil".data.getLast? = some c := by
      rw [h1]; simp
    have e2 : "potential nil pointer dereference in selector expression".data.getLast?
        = some c := by
      rw [h2]; simp
    exact absurd (e1.trans e2.symm) (by decide)

/-- C15, as stated, fails for member access: for the unchecked variable `p` of pointer type
`checkSelectorExpr` reports "potential nil pointer dereference: p may be nil", for the
receiver `(p)` it reports "potential nil pointer dereference in selector expression", and the
second text is not the first with a part that carries the name taken out. -/
theorem selector_messages_not_by_omission :
    (checkSelectorExpr scenarioPass selUnguarded initState).reports =
        [⟨66, "potential nil pointer dereference: p may be nil"⟩] ∧
      (checkSelectorExpr wrapPass selParen initState).reports =
        [⟨1, "potential nil pointer dereference in selector expression"⟩] ∧
      ¬ omitsOnlyName "potential nil pointer dereference: p may be nil"
        "potential nil pointer dereference in selector expression" "p" := by
  refine ⟨by decide, by decide, ?_⟩
  rintro ⟨a, part, b, -, h1, h2⟩
  refine selector_messages_differ a.data part.data b.data ?_ ?_
  · rw [h1]; simp [String.data_append]
  · rw [h2]; simp [String.data_append]

/-- C15, amended: for a receiver `Y` that is not an identifier and an identifier `id` that
reads as unchecked, the explicit-dereference message for `id` is the message for `Y`,
"explicit dereference of possibly nil pointer", followed by ": " and the name; when both
receivers resolve to the same slice or map type, the index message for `id` is the message
for `Y`, "indexing potentially nil slice" or "indexing potentially nil map", followed by ": "
and the name; in both shapes taking the name part out of the named message gives the unnamed
one.  When both receivers resolve to pointer kind, the member-access messages are
"potential nil pointer dereference: NAME may be nil" and "potential nil pointer dereference
in selector expression". -/
theorem messages_by_shape (pass : Pass) (id : Ident) (Y Index : Node) (Sel : Ident)
    (star : Pos) (st : RunState) (hY : ∀ i, Y ≠ .Ident i)
    (hc : st.checkedVars.index id.Name = false) :
    (∃ u : String,
      checkStarExpr pass (.StarExpr star Y) st = Reportf st star u ∧
      checkStarExpr pass (.StarExpr star (.Ident id)) st =
        Reportf st star (u ++ ": " ++ id.Name) ∧
      omitsOnlyName (u ++ ": " ++ id.Name) u id.Name ∧
      u = "explicit dereference of possibly nil pointer") ∧
    (∀ t : GoType, pass.Types Y = some t → pass.Types (.Ident id) = some t →
      t.Underlying.isSliceOrMap = true →
      ∃ u : String,
        checkIndexExpr pass (.IndexExpr Y Index) st = Reportf st Y.Pos u ∧
        checkIndexExpr pass (.IndexExpr (.Ident id) Index) st =
          Reportf st id.NamePos (u ++ ": " ++ id.Name) ∧
        omitsOnlyName (u ++ ": " ++ id.Name) u id.Name ∧
        (u = "indexing potentially nil slice" ∨ u = "indexing potentially nil map")) ∧
    (∀ t1 t2 : GoType, pass.Types Y = some t1 → pass.Types (.Ident id) = some t2 →
      t1.Underlying.isPointer = true → t2.Underlying.isPointer = true →
      checkSelectorExpr pass (.SelectorExpr Y Sel) st =
          Reportf st Y.Pos "potential nil pointer dereference in selector expression" ∧
        checkSelectorExpr pass (.SelectorExpr (.Ident id) Sel) st =
          Reportf st id.NamePos
            ("potential nil pointer dereference: " ++ id.Name ++ " may be nil")) := by
  have hYn : asIdent Y = none := asIdent_eq_none.mpr hY
  refine ⟨⟨_, ?_, ?_, omitsOnlyName_suffix _ _, rfl⟩, ?_, ?_⟩
  · simp [checkStarExpr, hYn, Node.Pos]
  · simp [checkStarExpr, asIdent, hc, Node.Pos]
  · intro t h1 h2 hk
    refine ⟨"indexing potentially nil " ++ typeKind t.Underlying, ?_, ?_,
      omitsOnlyName_suffix _ _, ?_⟩
    · simp [checkIndexExpr, h1, hk, hYn, Node.Pos]
    · simp [checkIndexExpr, h2, hk, asIdent, hc, Node.Pos]
    · rcases typeKind_of_isSliceOrMap _ hk with ⟨-, hs⟩ | ⟨-, hs⟩ <;> rw [hs]
      · left; decide
      · right; decide
  · intro t1 t2 h1 h2 hk1 hk2
    constructor
    · simp [checkSelectorExpr, h1, hk1, hYn, Node.Pos]
    · simp [checkSelectorExpr, h2, hk2, asIdent, hc, Node.Pos]

theorem messages_by_shape_witness :
    (∀ i, Node.ParenExpr 2 (.Ident ⟨3, "p"⟩) ≠ .Ident i) ∧
      initState.checkedVars.index "m" = false ∧
      ∃ u : String,
        checkStarExpr wrapPass (.StarExpr 1 (.ParenExpr 2 (.Ident ⟨3, "p"⟩))) initState
          = Reportf initState 1 u ∧
        checkStarExpr wrapPass (.StarExpr 1 (.Ident ⟨1, "m"⟩)) initState
          = Reportf initState 1 (u ++ ": " ++ "m") ∧
        omitsOnlyName (u ++ ": " ++ "m") u "m" ∧
        u = "explicit dereference of possibly nil pointer" :=
  ⟨fun _ h => Node.noConfusion h, rfl,
    (messages_by_shape wrapPass ⟨1, "m"⟩ (.ParenExpr 2 (.Ident ⟨3, "p"⟩)) (.Ident ⟨3, "k"⟩)
      ⟨5, "Field"⟩ 1 initState (fun _ h => Node.noConfusion h) rfl).1⟩

/-- C16: in any run, once a guard on the name `x` has been visited, every later selector,
explicit dereference or index expression whose receiver is an identifier spelled `x` leaves
the state as it was, and so would any identifier spelled `x` at any position: the lookup goes
by the name alone, not by the variable the identifier is bound to. -/
theorem name_keyed_checkedness (pass : Pass) (pre mid post : List Node) (g n : Node)
    (x : String) (hrun : visited pass.Files = pre ++ g :: (mid ++ n :: post))
    (hg : guardsName x g = true) (hn : derefOf x n = true) :
    (visit pass n (runOn pass (pre ++ g :: mid) initState)).reports =
        (runOn pass (pre ++ g :: mid) initState).reports ∧
      run pass = runOn pass post (visit pass n (runOn pass (pre ++ g :: mid) initState)) ∧
      ∀ m : Node, derefOf x m = true →
        visit pass m (runOn pass (pre ++ g :: mid) initState) =
          runOn pass (pre ++ g :: mid) initState := by
  have hx : (runOn pass (pre ++ g :: mid) initState).checkedVars.index x = true :=
    (runOn_index pass _ initState x).mpr (Or.inr ⟨g, by simp, hg⟩)
  refine ⟨by rw [visit_checked_deref pass n x _ hn hx], ?_,
    fun m hm => visit_checked_deref pass m x _ hm hx⟩
  exact run_split pass (pre ++ g :: mid) post n (by rw [hrun]; simp)

theorem name_keyed_checkedness_witness :
    visited unitTwoFuncs.Files = [] ++ ifX :: ([] ++ indexX :: []) ∧
      guardsName "x" ifX = true ∧ derefOf "x" indexX = true ∧
      typeRequirement unitTwoFuncs indexX = true ∧
      (visit unitTwoFuncs indexX (runOn unitTwoFuncs ([] ++ ifX :: []) initState)).reports =
        (runOn unitTwoFuncs ([] ++ ifX :: []) initState).reports :=
  ⟨rfl, rfl, rfl, rfl,
    (name_keyed_checkedness unitTwoFuncs [] [] [] ifX indexX "x" rfl rfl rfl).1⟩

/-- C18: a selector, explicit dereference or index expression whose receiver is not an
identifier and whose type requirement holds gets exactly one diagnostic, at its position,
with the message of its shape that carries no name, whatever the map holds. -/
theorem wrapped_receiver_flagged (pass : Pass) (n X : Node) (st : RunState)
    (hr : receiverOf n = some X) (hX : ∀ id, X ≠ .Ident id)
    (ht : typeRequirement pass n = true) :
    ∃ m : String, visit pass n st = ⟨st.checkedVars, st.reports ++ [⟨n.Pos, m⟩]⟩ ∧
      ((∃ Sel, n = .SelectorExpr X Sel ∧
          m = "potential nil pointer dereference in selector expression") ∨
        (∃ star, n = .StarExpr star X ∧ m = "explicit dereference of possibly nil pointer") ∨
        (∃ Index, n = .IndexExpr X Index ∧
          (m = "indexing potentially nil slice" ∨ m = "indexing potentially nil map"))) := by
  have hXn : asIdent X = none := asIdent_eq_none.mpr hX
  cases n with
  | SelectorExpr Y Sel =>
    have hY : Y = X := by simpa [receiverOf] using hr
    subst hY
    cases hty : pass.Types Y with
    | none => simp [typeRequirement, hty] at ht
    | some t =>
      have hp : t.Underlying.isPointer = true := by simpa [typeRequirement, hty] using ht
      exact ⟨_, by simp [visit, checkSelectorExpr, hty, hp, hXn, Reportf],
        Or.inl ⟨Sel, rfl, rfl⟩⟩
  | StarExpr star Y =>
    have hY : Y = X := by simpa [receiverOf] using hr
    subst hY
    exact ⟨_, by simp [visit, checkStarExpr, hXn, Reportf], Or.inr (Or.inl ⟨star, rfl, rfl⟩)⟩
  | IndexExpr Y Index =>
    have hY : Y = X := by simpa [receiverOf] using hr
    subst hY
    cases hty : pass.Types Y with
    | none => simp [typeRequirement, hty] at ht
    | some t =>
      have hp : t.Underlying.isSliceOrMap = true := by simpa [typeRequirement, hty] using ht
      refine ⟨"indexing potentially nil " ++ typeKind t.Underlying,
        by simp [visit, checkIndexExpr, hty, hp, hXn, Reportf],
        Or.inr (Or.inr ⟨Index, rfl, ?_⟩)⟩
      rcases typeKind_of_isSliceOrMap _ hp with ⟨-, hs⟩ | ⟨-, hs⟩ <;> rw [hs]
      · left; decide
      · right; decide
  | _ => simp [receiverOf] at hr

theorem wrapped_receiver_flagged_witness :
    allChecked.index "p" = true ∧ allChecked.index "m" = true ∧ allChecked.index "k" = true ∧
    -- `*(p)`
    (∃ m : String, visit wrapPass starParen ⟨allChecked, []⟩ =
      ⟨allChecked, [] ++ [⟨starParen.Pos, m⟩]⟩) ∧
    (visit wrapPass starParen ⟨allChecked, []⟩).reports =
      [⟨1, "explicit dereference of possibly nil pointer"⟩] ∧
    -- `(p).Field`
    (∃ m : String, visit wrapPass selParen ⟨allChecked, []⟩ =
      ⟨allChecked, [] ++ [⟨selParen.Pos, m⟩]⟩) ∧
    (visit wrapPass selParen ⟨allChecked, []⟩).reports =
      [⟨1, "potential nil pointer dereference in selector expression"⟩] ∧
    -- `p.a.b`
    (∃ m : String, visit wrapPass selNested ⟨allChecked, []⟩ =
      ⟨allChecked, [] ++ [⟨selNested.Pos, m⟩]⟩) ∧
    (visit wrapPass selNested ⟨allChecked, []⟩).reports =
      [⟨1, "potential nil pointer dereference in selector expression"⟩] ∧
    -- `m[k][j]`
    (∃ m : String, visit wrapPass indexNested ⟨allChecked, []⟩ =
      ⟨allChecked, [] ++ [⟨indexNested.Pos, m⟩]⟩) ∧
    (visit wrapPass indexNested ⟨allChecked, []⟩).reports =
      [⟨1, "indexing potentially nil slice"⟩] :=
  ⟨rfl, rfl, rfl,
   (wrapped_receiver_flagged wrapPass starParen (.ParenExpr 2 (.Ident ⟨3, "p"⟩))
      ⟨allChecked, []⟩ rfl (fun _ h => Node.noConfusion h) rfl).imp (fun _ h => h.1),
   by decide,
   (wrapped_receiver_flagged wrapPass selParen (.ParenExpr 1 (.Ident ⟨2, "p"⟩))
      ⟨allChecked, []⟩ rfl (fun _ h => Node.noConfusion h) rfl).imp (fun _ h => h.1),
   by decide,
   (wrapped_receiver_flagged wrapPass selNested (.SelectorExpr (.Ident ⟨1, "p"⟩) ⟨3, "a"⟩)
      ⟨allChecked, []⟩ rfl (fun _ h => Node.noConfusion h) rfl).imp (fun _ h => h.1),
   by decide,
   (wrapped_receiver_flagged wrapPass indexNested (.IndexExpr (.Ident ⟨1, "m"⟩) (.Ident ⟨3, "k"⟩))
      ⟨allChecked, []⟩ rfl (fun _ h => Node.noConfusion h) rfl).imp (fun _ h => h.1),
   by decide⟩

/-! ## Claims about the place of the guard in the preorder -/

/-- C17, as stated, fails in its second half: in the unit
`func f(c C) { _ = c.Close; if c != nil { } }`, with `C` an interface type, the member access
`c.Close` is visited before the guard on `c`, no guard on `c` comes earlier, and yet it is not
reported, because its receiver is not of pointer kind. -/
theorem use_before_guard_not_reported :
    visited unitInterface.Files = [useClose] ++ selClose :: [ifC] ∧
      derefOf "c" selClose = true ∧ guardsName "c" ifC = true ∧
      (∀ g ∈ [useClose], guardsName "c" g = false) ∧
      (run unitInterface).reports = [] ∧
      ¬ ∃ d : Diagnostic,
        (visit unitInterface selClose (runOn unitInterface [useClose] initState)).reports
          = (runOn unitInterface [useClose] initState).reports ++ [d] := by
  refine ⟨rfl, rfl, rfl, ?_, by decide, ?_⟩
  · intro g hg
    simp only [List.mem_singleton] at hg
    subst hg
    rfl
  · rintro ⟨d, hd⟩
    have h0 : (visit unitInterface selClose
        (runOn unitInterface [useClose] initState)).reports = [] := by decide
    have h1 : (runOn unitInterface [useClose] initState).reports = [] := by decide
    rw [h0, h1] at hd
    simp at hd

/-- C17, amended: an if-statement that occurs in the files and whose condition is a guard on
`x` is visited before its descendants, which follow it at once in the visit order; a
selector, explicit dereference or index expression with identifier receiver `x` among those
descendants (init statement, condition, body, else-branch) adds no diagnostic.  A
dereference-shaped node with identifier receiver `x` that is visited with no guard on `x`
before it, and whose type requirement holds, gets one diagnostic, at its position, naming
`x`. -/
theorem guard_covers_own_if_statement (pass : Pass) (i : Pos) (init : Option Node)
    (cond body : Node) (els : Option Node) (x : String)
    (hmem : Node.IfStmt i init cond body els ∈ walkList pass.Files)
    (hg : guardsName x (.IfStmt i init cond body els) = true) :
    (∃ pre post : List Node,
      visited pass.Files = pre ++ .IfStmt i init cond body els ::
        ((walkOpt init ++ cond.walk ++ body.walk ++ walkOpt els).filter nodeFilter ++ post) ∧
      ∀ mid n rest,
        (walkOpt init ++ cond.walk ++ body.walk ++ walkOpt els).filter nodeFilter
          = mid ++ n :: rest →
        derefOf x n = true →
        (visit pass n
            (runOn pass (pre ++ .IfStmt i init cond body els :: mid) initState)).reports =
          (runOn pass (pre ++ .IfStmt i init cond body els :: mid) initState).reports) ∧
    (∀ pre n post, visited pass.Files = pre ++ n :: post → derefOf x n = true →
      typeRequirement pass n = true → (∀ g ∈ pre, guardsName x g = false) →
      ∃ d : Diagnostic,
        (visit pass n (runOn pass pre initState)).reports
          = (runOn pass pre initState).reports ++ [d] ∧
        d.pos = n.Pos ∧ mentions d.message x) := by
  constructor
  · obtain ⟨p, q, hw⟩ := walkList_contiguous pass.Files _ hmem
    refine ⟨p.filter nodeFilter, q.filter nodeFilter, ?_, ?_⟩
    · simp [visited, hw, Node.walk, List.filter_append, nodeFilter]
    · intro mid n rest _ hn
      have hx : (runOn pass (p.filter nodeFilter ++ .IfStmt i init cond body els :: mid)
          initState).checkedVars.index x = true :=
        (runOn_index pass _ initState x).mpr (Or.inr ⟨_, by simp, hg⟩)
      rw [visit_checked_deref pass n x _ hn hx]
  · intro pre n post _ hn ht hnog
    have hx : (runOn pass pre initState).checkedVars.index x = false := by
      rw [← Bool.not_eq_true, runOn_index]
      rintro (h | ⟨g, hgpre, hgx⟩)
      · simp [initState, index_make] at h
      · rw [hnog g hgpre] at hgx
        exact Bool.false_ne_true hgx
    obtain ⟨d, hd, hpos, hmsg⟩ := visit_unchecked_deref pass n x _ hn ht hx
    exact ⟨d, by rw [hd], hpos, hmsg⟩

theorem guard_covers_own_if_statement_witness :
    ifElse ∈ walkList unitElse.Files ∧ guardsName "p" ifElse = true ∧
      (∃ pre post : List Node,
        visited unitElse.Files = pre ++ ifElse ::
          ((walkOpt none ++ (Node.BinaryExpr (.Ident ⟨65, "p"⟩) .NEQ (.Ident ⟨70, "nil"⟩)).walk
              ++ (Node.Other "BlockStmt" 74 []).walk
              ++ walkOpt (some (.Other "BlockStmt" 84 [useElse]))).filter nodeFilter ++ post)) ∧
      -- `p.Field` in the else-branch is passed over
      (visit unitElse selElse (runOn unitElse [starT, ifElse, useElse] initState)).reports =
        (runOn unitElse [starT, ifElse, useElse] initState).reports ∧
      (run unitElse).reports = [⟨58, "explicit dereference of possibly nil pointer: T"⟩] ∧
      -- `p.Field` before the guard is reported
      (run unitLateGuard).reports =
        [⟨58, "explicit dereference of possibly nil pointer: T"⟩,
         ⟨66, "potential nil pointer dereference: p may be nil"⟩] :=
  ⟨List.getElem?_mem (show (walkList unitElse.Files)[21]? = some ifElse from rfl), rfl,
    (guard_covers_own_if_statement unitElse 62 none
      (.BinaryExpr (.Ident ⟨65, "p"⟩) .NEQ (.Ident ⟨70, "nil"⟩)) (.Other "BlockStmt" 74 [])
      (some (.Other "BlockStmt" 84 [useElse])) "p"
      (List.getElem?_mem (show (walkList unitElse.Files)[21]? = some ifElse from rfl))
      rfl).1.imp (fun _ h => h.imp (fun _ h2 => h2.1)),
    by decide, by decide, by decide⟩

end NilSeeker
